import Mathlib

/-!
Shallow embedding of the in-page interaction engine of the big-brother
repository (src/src/content/content.ts) and verification of the frozen
claims about it.

Modelling conventions:
* A DOM element is a flat record (`Elem`) carrying the fields the engine
  reads (tag name, id, classes, attributes, text, computed-style data,
  bounding-box size) plus boolean summaries of the ancestor structure the
  source queries with CSS combinators (for example membership in a
  header/footer/nav region, or in a product-card subtree).  Tag names are
  stored lowercase; the source reads the uppercase tagName and lowercases
  it wherever it builds selector text, so the comparisons against
  uppercase literals in the source become comparisons against the
  lowercase literals here.
* The page-lifetime mutable globals (element cache, selector counter,
  clicked-element memo, highlight records) live in `EngState`; functions
  that mutate them thread the state explicitly.
* document.querySelector / querySelectorAll are modelled for exactly the
  selector shapes the engine generates (#id, tag[name="v"], tag.c1.c2.c3,
  [data-bb-id="m"]).  Matching is string-level: a class selector string is
  split on the dot character, exactly as a CSS parser would tokenize the
  unescaped string the source builds, so a class name that itself contains
  a dot changes which elements the selector matches.  Strings whose
  components contain characters that would need CSS escaping are treated
  as selectors that throw (the source catches these per candidate).
* JS strings are Lean Strings; the JS operations used by the source
  (trim, includes, startsWith, substring, template literals) are defined
  below over the underlying character lists.
-/

/-! ### JS string primitives -/

/-- Contiguous-substring test on character lists. -/
def listInfix (pat : List Char) : List Char → Bool
  | [] => pat.isEmpty
  | c :: rest => pat.isPrefixOf (c :: rest) || listInfix pat rest

/-- JS String.prototype.includes, via character-list infix test. -/
def jsIncludes (s pat : String) : Bool := listInfix pat.data s.data

/-- JS String.prototype.startsWith. -/
def jsStartsWith (s pat : String) : Bool := pat.data.isPrefixOf s.data

/-- Whitespace for the purposes of JS String.prototype.trim. -/
def jsSpace (c : Char) : Bool := c == ' ' || c == '\t' || c == '\n' || c == '\r'

/-- JS String.prototype.trim. -/
def jsTrim (s : String) : String :=
  ⟨((s.data.dropWhile jsSpace).reverse.dropWhile jsSpace).reverse⟩

/-- JS s.substring(0, n). -/
def jsTake (s : String) (n : Nat) : String := ⟨s.data.take n⟩

/-- JS text.replace(pat, "") with a string pattern: remove the first
occurrence only (JS replace with a string argument replaces one
occurrence; pattern "" removes nothing). -/
def replaceFirst (s pat : String) : String :=
  if pat = "" then s
  else
    match s.splitOn pat with
    | [] => s
    | [x] => x
    | x :: y :: rest => x ++ String.intercalate pat (y :: rest)

/-! ### Decimal rendering of the marker counter

The source stamps markers with a JS template literal over a Nat counter,
which renders the counter in decimal.  We define the decimal rendering by
fuel-bounded recursion (mirroring Nat.toDigitsCore) so that the kernel can
evaluate it, and prove it injective through a decode function. -/

/-- Decimal digit character for n < 10. -/
def decDigit (n : Nat) : Char :=
  if n = 0 then '0' else if n = 1 then '1' else if n = 2 then '2'
  else if n = 3 then '3' else if n = 4 then '4' else if n = 5 then '5'
  else if n = 6 then '6' else if n = 7 then '7' else if n = 8 then '8' else '9'

/-- Fuel-bounded decimal digits of n (most significant first). -/
def natToDecAux : Nat → Nat → List Char
  | 0, _ => []
  | g + 1, n => if n < 10 then [decDigit n] else natToDecAux g (n / 10) ++ [decDigit (n % 10)]

/-- Decimal rendering of a natural number, as a JS template literal does. -/
def natToDec (n : Nat) : String := ⟨natToDecAux (n + 1) n⟩

/-- Decode a digit string back to its value. -/
def decValue (l : List Char) : Nat :=
  l.foldl (fun a c => 10 * a + (c.toNat - 48)) 0

/-! ### Character-class predicates for selector syntax

The source validates ids with the regex /^[a-zA-Z][\w-]*$/ before using
them in a selector.  Name values and class names are not validated by the
source; instead document.querySelectorAll throws on the invalid selector
strings they can produce and the source catches that per candidate.  We
model the set of throwing strings conservatively: a component is treated
as valid exactly when it is a plain CSS identifier (letters, digits,
hyphen, underscore, letter first), and name values additionally must not
contain quote, backslash or square-bracket characters. -/

/-- The id pattern from the source: /^[a-zA-Z][\w-]*$/. -/
def idOk (s : String) : Bool :=
  match s.data with
  | [] => false
  | c :: cs => c.isAlpha && cs.all (fun d => d.isAlphanum || d == '_' || d == '-')

/-- Plain CSS identifier (used for tag names and class names). -/
def cssIdentOk (s : String) : Bool :=
  match s.data with
  | [] => false
  | c :: cs => (c.isAlpha || c == '_') && cs.all (fun d => d.isAlphanum || d == '_' || d == '-')

/-- Tag-name component of a selector. -/
def tagIdentOk (s : String) : Bool :=
  match s.data with
  | [] => false
  | c :: cs => c.isAlpha && cs.all (fun d => d.isAlphanum)

/-- Attribute value usable inside tag[name="v"] without CSS escaping. -/
def nameValOk (s : String) : Bool :=
  s.data.all (fun c => !(c == '"' || c == '\\' || c == '[' || c == ']'))

/-! ### List splitters for the string-level selector semantics -/

/-- Split a character list on every occurrence of a separator. -/
def splitOnChar (sep : Char) : List Char → List (List Char)
  | [] => [[]]
  | c :: rest =>
    if c == sep then [] :: splitOnChar sep rest
    else
      match splitOnChar sep rest with
      | [] => [[c]]
      | h :: t => (c :: h) :: t

/-- Split at the first occurrence of a pattern, returning the pieces
before and after it. -/
def splitOnceOn (pat : List Char) : List Char → Option (List Char × List Char)
  | [] => none
  | c :: rest =>
    if pat.isPrefixOf (c :: rest) then some ([], (c :: rest).drop pat.length)
    else (splitOnceOn pat rest).map (fun p => (c :: p.1, p.2))

/-- Join character lists with a separator character (Array.prototype.join). -/
def intercalateChar (sep : Char) : List (List Char) → List Char
  | [] => []
  | [x] => x
  | x :: y :: rest => x ++ sep :: intercalateChar sep (y :: rest)

/-! ### Association-list operations for the element cache (a JS Map) -/

/-- Map.prototype.get: first binding of the key. -/
def assocLookup (l : List (String × Nat)) (k : String) : Option Nat :=
  match l.find? (fun p => p.1 == k) with
  | some p => some p.2
  | none => none

/-- Map.prototype.set: overwrite an existing binding, else append. -/
def mapSet (l : List (String × Nat)) (k : String) (v : Nat) : List (String × Nat) :=
  if l.any (fun p => p.1 == k) then l.map (fun p => if p.1 == k then (k, v) else p)
  else l ++ [(k, v)]

/-! ### The DOM element record -/

/-- A DOM element, flattened to the fields the engine reads.  Ancestor
relationships queried through CSS combinators in the source are recorded
as boolean summaries (productAncestor for the product-card context
selectors, navAncestor for header/footer/nav/[role=navigation] ancestry,
cartFormAncestor for form[action*=cart], productFormAncestor for
product-form).  strippedText is the textContent of the clone built by the
button loop after removing style/script/svg subtrees.  wrapLabelText? is
the textContent of a wrapping label element, if any (closest(label) in
findLabelFor).  eid is element identity (JS object identity). -/
structure Elem where
  eid : Nat
  tag : String
  idAttr : String
  classes : List String
  name? : Option String := none
  href? : Option String := none
  ariaLabel? : Option String := none
  placeholder? : Option String := none
  typeAttr? : Option String := none
  ariaLabelledby? : Option String := none
  forAttr? : Option String := none
  roleAttr? : Option String := none
  dataBBId? : Option String := none
  innerText : String := ""
  textContent : String := ""
  strippedText : String := ""
  value : String := ""
  display : String := "block"
  visibility : String := "visible"
  opacity : String := "1"
  rectW : Nat := 0
  rectH : Nat := 0
  inBody : Bool := true
  productAncestor : Bool := false
  navAncestor : Bool := false
  cartFormAncestor : Bool := false
  productFormAncestor : Bool := false
  wrapLabelText? : Option String := none
  outline : String := ""
  boxShadow : String := ""
deriving Repr, DecidableEq

/-- Forget the marker attribute: the only element field the engine itself
writes during extraction. -/
def stripBB (e : Elem) : Elem := { e with dataBBId? := none }

/-! ### Engine state: the page-lifetime globals of the content script -/

/-- The mutable globals of content.ts: the document (with title and URL),
the element cache with its counter, the clicked-elements memo, the
highlight records, the overlay tracking target and the pointer cue. -/
structure EngState where
  title : String := ""
  url : String := ""
  doc : List Elem
  cache : List (String × Nat) := []
  counter : Nat := 0
  clicked : List String := []
  highlighted : List (Nat × String × String) := []
  overlayEid : Option Nat := none
  pointerOpacity : Option String := none
deriving Repr, DecidableEq

/-- Update one element of the document in place (a live-reference write). -/
def updateElem (doc : List Elem) (eid : Nat) (f : Elem → Elem) : List Elem :=
  doc.map (fun x => if x.eid == eid then f x else x)

/-! ### Selector matching -/

def matchesId (i : String) (x : Elem) : Bool := x.idAttr == i

def matchesName (t v : String) (x : Elem) : Bool := x.tag == t && x.name? == some v

def matchesClasses (t : String) (ps : List String) (x : Elem) : Bool :=
  x.tag == t && ps.all (fun c => x.classes.contains c)

def matchesMarker (m : String) (x : Elem) : Bool := x.dataBBId? == some m

/-- The marker-selector string for a cache id. -/
def mkMarkerSel (m : String) : String := "[data-bb-id=\"" ++ m ++ "\"]"

/-- The marker id for a counter value, as the template literal renders it. -/
def mkMarker (j : Nat) : String := "bb-" ++ natToDec j

/-- The regex match /\[data-bb-id="([^"]+)"\]/ of getElementBySelector,
for the canonical full-string marker form the engine generates. -/
def extractBBId (s : String) : Option String :=
  let pre := "[data-bb-id=\"".data
  if pre.isPrefixOf s.data then
    let rest := s.data.drop pre.length
    if rest.drop (rest.length - 2) = ['"', ']'] ∧ 2 ≤ rest.length ∧
        (rest.take (rest.length - 2)).all (fun c => !(c == '"')) then
      some ⟨rest.take (rest.length - 2)⟩
    else none
  else none

/-- document.querySelector for the selector shapes the engine generates:
#id, [data-bb-id="m"], tag[name="v"] and tag.c1.c2.c3.  Returns none both
for no match and for an invalid selector (the source catches the throw
and returns null). -/
def querySelStr (doc : List Elem) (s : String) : Option Elem :=
  if s.data.head? = some '#' then
    if idOk ⟨s.data.tail⟩ then doc.find? (matchesId ⟨s.data.tail⟩) else none
  else if ("[data-bb-id=\"".data).isPrefixOf s.data then
    match extractBBId s with
    | some m => doc.find? (matchesMarker m)
    | none => none
  else
    match splitOnceOn ("[name=\"".data) s.data with
    | some (pre, post) =>
      if post = post.dropLast.dropLast ++ ['"', ']'] then
        if tagIdentOk ⟨pre⟩ && nameValOk ⟨post.dropLast.dropLast⟩ then
          doc.find? (matchesName ⟨pre⟩ ⟨post.dropLast.dropLast⟩)
        else none
      else none
    | none =>
      match splitOnChar '.' s.data with
      | t :: p :: ps =>
        if tagIdentOk ⟨t⟩ && (p :: ps).all (fun q => cssIdentOk ⟨q⟩) then
          doc.find? (matchesClasses ⟨t⟩ ((p :: ps).map (fun q => (⟨q⟩ : String))))
        else none
      | _ => none

/-- getElementBySelector from the source: check the marker regex and the
element cache first (only honoured while the cached element is still in
the body), then fall back to a live querySelector. -/
def getElementBySelector (st : EngState) (sel : String) : Option Elem :=
  match extractBBId sel with
  | some m =>
    match assocLookup st.cache m with
    | some eid =>
      match st.doc.find? (fun x => x.eid == eid) with
      | some e => if e.inBody then some e else querySelStr st.doc sel
      | none => querySelStr st.doc sel
    | none => querySelStr st.doc sel
  | none => querySelStr st.doc sel

/-! ### Selector generation -/

/-- Class names starting with a transient-state word are excluded from
class selectors (the /^(hover|focus|active|selected|disabled)/ test). -/
def transientClass (c : String) : Bool :=
  ["hover", "focus", "active", "selected", "disabled"].any
    (fun p => p.data.isPrefixOf c.data)

/-- generateSelector: try #id, then tag[name=v] for form fields, then a
tag.class selector from the first three non-transient classes, each only
when it matches exactly one element now; otherwise stamp a fresh marker,
record the element in the cache, and return the marker selector.  The
class-selector candidate is counted with the string-level semantics of
the unescaped string the source builds (split on dots), and candidates
whose components would need CSS escaping are the ones whose
querySelectorAll call throws, which the source catches and skips. -/
def classesF (e : Elem) : List String :=
  e.classes.filter (fun c => c ≠ "" && !transientClass c)

/-- The characters of the class selector body: the first three filtered
class names joined with dots. -/
def classJoined (e : Elem) : List Char :=
  intercalateChar '.' (((classesF e).take 3).map String.data)

/-- The class parts as a CSS parser tokenizes the unescaped string: the
joined body split back on every dot. -/
def classParts (e : Elem) : List String :=
  (splitOnChar '.' (classJoined e)).map (fun q => (⟨q⟩ : String))

def generateSelector (st : EngState) (e : Elem) : String × EngState :=
  if e.idAttr ≠ "" ∧ idOk e.idAttr ∧ (st.doc.filter (matchesId e.idAttr)).length = 1 then
    ("#" ++ e.idAttr, st)
  else if (e.tag == "input" || e.tag == "textarea" || e.tag == "select") ∧
      (e.name?.getD "") ≠ "" ∧ tagIdentOk e.tag ∧ nameValOk (e.name?.getD "") ∧
      (st.doc.filter (matchesName e.tag (e.name?.getD ""))).length = 1 then
    (e.tag ++ "[name=\"" ++ e.name?.getD "" ++ "\"]", st)
  else if (classesF e).length > 0 ∧ tagIdentOk e.tag ∧ classParts e ≠ [] ∧
      ((classParts e).all (fun q => cssIdentOk q)) = true ∧
      (st.doc.filter (matchesClasses e.tag (classParts e))).length = 1 then
    (⟨e.tag.data ++ '.' :: classJoined e⟩, st)
  else
    (mkMarkerSel (mkMarker st.counter),
     { st with
       doc := updateElem st.doc e.eid
         (fun x => { x with dataBBId? := some (mkMarker st.counter) })
       cache := mapSet st.cache (mkMarker st.counter) e.eid
       counter := st.counter + 1 })

/-! ### Visibility predicate and label lookup -/

/-- isVisible from the source: computed display/visibility/opacity checks
plus a non-degenerate bounding box. -/
def isVisible (e : Elem) : Bool :=
  e.display != "none" && e.visibility != "hidden" && e.opacity != "0" &&
    decide (0 < e.rectW) && decide (0 < e.rectH)

/-- findLabelFor from the source.  The label[for="id"] query is built by
unguarded string interpolation, so an id whose characters would need CSS
escaping makes document.querySelector throw; findLabelFor has no
try/catch, hence the Except.  Beyond that: a label bound via the for
attribute wins; then a wrapping label (its text minus the first
occurrence of the input value); then the aria-labelledby target. -/
def findLabelForE (doc : List Elem) (e : Elem) : Except String String :=
  if e.idAttr ≠ "" then
    if nameValOk e.idAttr then
      match doc.find? (fun l => l.tag == "label" && l.forAttr? == some e.idAttr) with
      | some l => .ok (jsTrim l.textContent)
      | none => .ok (findLabelForRest doc e)
    else .error "SyntaxError: invalid selector in label[for] lookup"
  else .ok (findLabelForRest doc e)
where
  findLabelForRest (doc : List Elem) (e : Elem) : String :=
    match e.wrapLabelText? with
    | some t => jsTrim (replaceFirst (jsTrim t) e.value)
    | none =>
      match e.ariaLabelledby? with
      | some lid =>
        if lid ≠ "" then
          match doc.find? (fun l => l.idAttr == lid) with
          | some l => jsTrim l.textContent
          | none => ""
        else ""
      | none => ""

/-! ### Candidate queries of the feature extractor -/

/-- Product-link candidates: anchors inside a product-card-like subtree
(the .product-card a / [class*=product] a / article a / [data-product] a
family of selectors). -/
def productLinkPred (e : Elem) : Bool := e.tag == "a" && e.productAncestor

/-- Other-link candidates: a[href] not inside header/footer/nav or a
navigation landmark. -/
def otherLinkPred (e : Elem) : Bool := e.tag == "a" && e.href?.isSome && !e.navAncestor

/-- The el.closest(header, footer, nav, [role=navigation]) test in the
link loop: ancestor regions, or the element itself carrying the
navigation role (an anchor cannot itself be header/footer/nav). -/
def linkNavClosest (e : Elem) : Bool := e.navAncestor || e.roleAttr? == some "navigation"

/-- Input candidates: input (except hidden/button/submit), textarea,
select. -/
def inputPred (e : Elem) : Bool :=
  (e.tag == "input" &&
    !(e.typeAttr? == some "hidden" || e.typeAttr? == some "button" ||
      e.typeAttr? == some "submit")) ||
  e.tag == "textarea" || e.tag == "select"

/-- Action-button candidates: the add-to-cart class/id/name heuristics,
submit buttons, and buttons inside cart forms or product-form elements. -/
def actionButtonPred (e : Elem) : Bool :=
  e.classes.contains "add-to-cart" || e.classes.contains "addtocart" ||
  jsIncludes ⟨intercalateChar ' ' (e.classes.map String.data)⟩ "add-to-cart" ||
  jsIncludes ⟨intercalateChar ' ' (e.classes.map String.data)⟩ "AddToCart" ||
  jsIncludes e.idAttr "add-to-cart" || jsIncludes e.idAttr "AddToCart" ||
  (match e.name? with | some n => jsIncludes n "add" | none => false) ||
  (e.tag == "button" && e.name? == some "add") ||
  (e.tag == "button" && e.typeAttr? == some "submit") ||
  (e.tag == "button" && e.cartFormAncestor) ||
  (e.tag == "button" && e.productFormAncestor)

/-- Other-button candidates: button, input[type=button], input[type=submit],
[role=button]. -/
def otherButtonPred (e : Elem) : Bool :=
  e.tag == "button" ||
  (e.tag == "input" && (e.typeAttr? == some "button" || e.typeAttr? == some "submit")) ||
  e.roleAttr? == some "button"

/-! ### Features and responses -/

inductive FType where
  | link
  | input
  | button
deriving Repr, DecidableEq

/-- Key piece for the global (type, text, href) dedup key. -/
def fTypeKey : FType → String
  | .link => "link"
  | .input => "input"
  | .button => "button"

/-- One extracted feature.  srcEid is ghost data: the identity of the
element the feature was generated from; the source record has no such
field and no engine logic reads it — it only lets the round-trip claim
name the originating element. -/
structure Feature where
  index : Nat
  ftype : FType
  text : String
  selector : String
  href? : Option String := none
  placeholder? : Option String := none
  ariaLabel? : Option String := none
  valueLen? : Option Nat := none
  alreadyClicked : Bool := false
  srcEid : Nat
deriving Repr, DecidableEq

/-- The plain result object every handler answers with. -/
structure ContentResponse where
  success : Bool
  message? : Option String := none
  error? : Option String := none
  pageTitle : String := ""
  pageUrl : String := ""
  features : List Feature := []
deriving Repr, DecidableEq

/-! ### The three collection loops of extractPageFeatures -/

/-- The label of a link: trimmed innerText, else trimmed textContent. -/
def linkText (e : Elem) : String :=
  if jsTrim e.innerText ≠ "" then jsTrim e.innerText else jsTrim e.textContent

/-- The decision the link loop takes for one candidate: skip it (with
the possibly-updated seen-href set) or push a feature (with the state
selector generation produced).  Guard order follows the source: invalid
href, nav region, duplicate href, then add the href to the seen set,
visibility, empty label, fragment href, accept. -/
inductive LinkStep where
  | skip (seen1 : List String)
  | push (seen1 : List String) (f : Feature) (st1 : EngState)

def linkStep (st : EngState) (idx : Nat) (seen : List String) (e : Elem) : LinkStep :=
  if (e.href?.getD "") == "" || jsStartsWith (e.href?.getD "") "javascript:" ||
      (e.href?.getD "") == "#" then
    .skip seen
  else if linkNavClosest e then .skip seen
  else if seen.contains (e.href?.getD "") then .skip seen
  else if !isVisible e then .skip ((e.href?.getD "") :: seen)
  else if linkText e == "" && e.ariaLabel?.getD "" == "" then .skip ((e.href?.getD "") :: seen)
  else if jsStartsWith (e.href?.getD "") "#" && !jsIncludes (e.href?.getD "") "MainContent" then
    .skip ((e.href?.getD "") :: seen)
  else
    .push ((e.href?.getD "") :: seen)
      { index := idx, ftype := .link
        text := jsTake (if linkText e ≠ "" then linkText e else e.ariaLabel?.getD "") 100
        selector := (generateSelector st e).1
        href? := if (e.href?.getD "") == "" then none else some (e.href?.getD "")
        ariaLabel? := if e.ariaLabel?.getD "" == "" then none else some (e.ariaLabel?.getD "")
        alreadyClicked := (generateSelector st e).2.clicked.contains (generateSelector st e).1
        srcEid := e.eid }
      (generateSelector st e).2

/-- The link loop: stop at 60 accepted; skip empty/javascript:/bare-#
hrefs, nav-region links, duplicate hrefs, invisible links, label-less
links and fragment links that do not target MainContent; label from
innerText, then textContent, then aria-label, truncated to 100. -/
def collectLinks (st : EngState) (idx : Nat) (seen : List String)
    (acc : List Feature) : List Elem → List Feature × Nat × EngState
  | [] => (acc, idx, st)
  | e :: rest =>
    if 60 ≤ acc.length then (acc, idx, st)
    else
      match linkStep st idx seen e with
      | .skip seen1 => collectLinks st idx seen1 acc rest
      | .push seen1 f st1 => collectLinks st1 (idx + 1) seen1 (acc ++ [f]) rest

/-- The decision the input loop takes for one candidate.  The label
lookup can throw, which aborts the whole extraction. -/
inductive InputStep where
  | skip
  | push (f : Feature) (st1 : EngState)

def inputStep (st : EngState) (idx : Nat) (e : Elem) : Except String InputStep :=
  if !isVisible e then .ok .skip
  else
    match findLabelForE st.doc e with
    | .error err => .error err
    | .ok label =>
      .ok (.push
        { index := idx, ftype := .input
          text := if label ≠ "" then label
                  else if e.name?.getD "" ≠ "" then e.name?.getD ""
                  else if e.placeholder?.getD "" ≠ "" then e.placeholder?.getD ""
                  else if e.typeAttr?.getD "" ≠ "" then e.typeAttr?.getD ""
                  else "text"
          selector := (generateSelector st e).1
          placeholder? := if e.placeholder?.getD "" == "" then none
                          else some (e.placeholder?.getD "")
          ariaLabel? := if e.ariaLabel?.getD "" ≠ "" then some (e.ariaLabel?.getD "")
                        else if label ≠ "" then some label else none
          valueLen? := some e.value.length
          alreadyClicked := (generateSelector st e).2.clicked.contains (generateSelector st e).1
          srcEid := e.eid }
        (generateSelector st e).2)

/-- The input loop: stop at 75; skip invisible inputs; label priority
label-text, name, placeholder, type attribute, literal "text"; records
the value length.  Label lookup can throw (see findLabelForE). -/
def collectInputs (st : EngState) (idx : Nat) (acc : List Feature) :
    List Elem → Except String (List Feature × Nat × EngState)
  | [] => .ok (acc, idx, st)
  | e :: rest =>
    if 75 ≤ acc.length then .ok (acc, idx, st)
    else
      match inputStep st idx e with
      | .error err => .error err
      | .ok .skip => collectInputs st idx acc rest
      | .ok (.push f st1) => collectInputs st1 (idx + 1) (acc ++ [f]) rest

/-- The decision the button loop takes for one candidate: skip without
touching anything, skip after selector generation already mutated the
state (a duplicate selector), or push. -/
inductive ButtonStep where
  | skip
  | dup (st1 : EngState)
  | push (f : Feature) (st1 : EngState)

/-- The clean button text: the stripped-clone textContent, else the
value property. -/
def buttonText (e : Elem) : String :=
  if jsTrim e.strippedText ≠ "" then jsTrim e.strippedText else e.value

def buttonStep (st : EngState) (idx : Nat) (seenSels : List String) (e : Elem) : ButtonStep :=
  if !actionButtonPred e && !isVisible e then .skip
  else if actionButtonPred e && !(0 < e.rectW || 0 < e.rectH) && !e.inBody then .skip
  else if jsIncludes (buttonText e) ".cls-" || jsIncludes (buttonText e) "\x7b" ||
      jsIncludes (buttonText e) "fill:" || jsIncludes (buttonText e) "stroke:" then .skip
  else if buttonText e == "" && e.ariaLabel?.getD "" == "" && e.name?.getD "" == "" then .skip
  else if seenSels.contains (generateSelector st e).1 then .dup (generateSelector st e).2
  else
    .push
      { index := idx, ftype := .button
        text := jsTake (if buttonText e ≠ "" then buttonText e
                        else if e.ariaLabel?.getD "" ≠ "" then e.ariaLabel?.getD ""
                        else e.name?.getD "") 100
        selector := (generateSelector st e).1
        ariaLabel? := if e.ariaLabel?.getD "" == "" then none else some (e.ariaLabel?.getD "")
        alreadyClicked := (generateSelector st e).2.clicked.contains (generateSelector st e).1
        srcEid := e.eid }
      (generateSelector st e).2

/-- The button loop: stop at 75; strict visibility for plain buttons and
the lenient has-size-or-attached check for action buttons; clean text
from the stripped clone, else the value property; skip CSS-looking text;
drop duplicate selectors; label truncated to 100. -/
def collectButtons (st : EngState) (idx : Nat) (seenSels : List String)
    (acc : List Feature) : List Elem → List Feature × Nat × EngState
  | [] => (acc, idx, st)
  | e :: rest =>
    if 75 ≤ acc.length then (acc, idx, st)
    else
      match buttonStep st idx seenSels e with
      | .skip => collectButtons st idx seenSels acc rest
      | .dup st1 => collectButtons st1 idx seenSels acc rest
      | .push f st1 =>
        collectButtons st1 (idx + 1) (seenSels ++ [f.selector]) (acc ++ [f]) rest

/-- The (type, text, href-or-empty) dedup key of a feature. -/
def featKey (f : Feature) : String :=
  fTypeKey f.ftype ++ ":" ++ f.text ++ ":" ++ f.href?.getD ""

/-- The global dedup filter on the (type, text, href-or-empty) key,
keeping the first occurrence. -/
def dedupKeyed (seen : List String) : List Feature → List Feature
  | [] => []
  | f :: rest =>
    if seen.contains (featKey f) then dedupKeyed seen rest
    else f :: dedupKeyed (featKey f :: seen) rest

/-- The forEach((f, idx) => f.index = idx) reindexing pass, starting
from a given index. -/
def reindexFrom (n : Nat) : List Feature → List Feature
  | [] => []
  | f :: fs => { f with index := n } :: reindexFrom (n + 1) fs

/-- Reindex densely from zero in final order. -/
def reindex (fs : List Feature) : List Feature := reindexFrom 0 fs

/-- extractPageFeatures: links (products first, then the rest), then
inputs, then buttons (action buttons first); global dedup; reindex.
Each phase queries the then-current document.  The input phase can
propagate the label[for] selector throw; nothing else throws. -/
def extractPageFeatures (st : EngState) : Except String (ContentResponse × EngState) :=
  let linkCands := st.doc.filter productLinkPred ++ st.doc.filter otherLinkPred
  let lr := collectLinks st 0 [] [] linkCands
  let st1 := lr.2.2
  match collectInputs st1 lr.2.1 [] (st1.doc.filter inputPred) with
  | .error err => .error err
  | .ok ir =>
    let st2 := ir.2.2
    let buttonCands := st2.doc.filter actionButtonPred ++ st2.doc.filter otherButtonPred
    let br := collectButtons st2 ir.2.1 [] [] buttonCands
    let features := lr.1 ++ ir.1 ++ br.1
    let unique := dedupKeyed [] features
    let final := reindex unique
    .ok ({ success := true, pageTitle := st.title, pageUrl := st.url,
           features := final,
           message? := some ("Found " ++ natToDec final.length ++ " interactive elements") },
         br.2.2)

/-! ### Highlight subsystem -/

/-- clearAllHighlights: restore every tracked element's original outline
and box-shadow, forget the records, stop overlay tracking, and fade the
pointer cue if present.  Idempotent. -/
def clearAllHighlights (st : EngState) : EngState :=
  let doc := st.highlighted.foldl
    (fun d hr =>
      updateElem d hr.1 (fun x => { x with outline := hr.2.1, boxShadow := hr.2.2 }))
    st.doc
  { st with
    doc := doc
    highlighted := []
    overlayEid := none
    pointerOpacity := st.pointerOpacity.map (fun _ => "0") }

/-- highlightElement: snapshot the original outline/box-shadow on first
highlight of an element, then force the red outline and glow.  The
duration-based auto-restore is a deferred timer that fires after every
synchronous window modelled here, so it does not appear as a state
change. -/
def highlightElement (st : EngState) (eid : Nat) : EngState :=
  let orig := st.doc.find? (fun x => x.eid == eid)
  let highlighted :=
    if st.highlighted.any (fun r => r.1 == eid) then st.highlighted
    else
      match orig with
      | some e => st.highlighted ++ [(eid, e.outline, e.boxShadow)]
      | none => st.highlighted
  { st with
    highlighted := highlighted,
    doc := updateElem st.doc eid (fun x =>
      { x with outline := "3px solid #ff0000",
               boxShadow := "0 0 0 4px rgba(255, 0, 0, 0.35)" }) }

/-- movePointerToElement: the pointer cue node becomes visible. -/
def movePointerToElement (st : EngState) : EngState :=
  { st with pointerOpacity := some "1" }

/-! ### The action executor -/

/-- markElementAsClicked: regenerate the selector for the element and add
it to the clicked-elements memo. -/
def markElementAsClicked (st : EngState) (e : Elem) : EngState :=
  let p := generateSelector st e
  { p.2 with clicked := if p.2.clicked.contains p.1 then p.2.clicked
                        else p.2.clicked ++ [p.1] }

/-- The targetIndex field of an EXECUTE_ACTION payload: a number, an
explicit null, or absent (JS undefined).  The source only tests
targetIndex === null, which is false for undefined. -/
inductive JsIdx where
  | num (n : Nat)
  | null
  | undef
deriving Repr, DecidableEq

/-- Template-literal rendering of a targetIndex. -/
def jsIdxStr : JsIdx → String
  | .num n => natToDec n
  | .null => "null"
  | .undef => "undefined"

/-- The f.index === targetIndex comparison. -/
def jsIdxEq (n : Nat) : JsIdx → Bool
  | .num m => n == m
  | _ => false

structure ActionPayload where
  action : String
  targetIndex : JsIdx := .undef
  textInput : Option String := none
deriving Repr, DecidableEq

/-- The observable steps of one executeAction call, in order. -/
inductive Ev where
  | scrollBy (y : Nat)
  | sleep (ms : Nat)
  | clearHighlights
  | scrollIntoView (eid : Nat)
  | highlight (eid : Nat) (durationMs : Nat)
  | pointer (eid : Nat)
  | click (eid : Nat)
  | focus (eid : Nat)
  | setValue (eid : Nat) (v : String)
  | dispatch (eid : Nat) (name : String)
deriving Repr, DecidableEq

/-- executeAction from the source: SCROLL and WAIT always succeed; a
targetIndex that is literally null fails before any extraction; otherwise
re-extract (which may throw through the label lookup), locate the feature
by index, resolve its selector, then clear highlights, scroll into view,
highlight for 5000ms and pause 500ms before acting.  CLICK moves the
pointer cue, waits 800ms, clicks and records the clicked selector; TYPE
without text fails only after the choreography above; TYPE with text
focuses, sets the value and dispatches input then change.  Returns the
response, the final state and the ordered step trace. -/
def executeAction (st : EngState) (p : ActionPayload) :
    Except String (ContentResponse × EngState × List Ev) :=
  if p.action == "SCROLL" then
    .ok ({ success := true, message? := some "Scrolled down" }, st, [.scrollBy 300])
  else if p.action == "WAIT" then
    .ok ({ success := true, message? := some "Waited 1 second" }, st, [.sleep 1000])
  else if p.targetIndex == JsIdx.null then
    .ok ({ success := false, error? := some "No target element specified" }, st, [])
  else
    match extractPageFeatures st with
    | .error err => .error err
    | .ok (r, st1) =>
      match r.features.find? (fun f => jsIdxEq f.index p.targetIndex) with
      | none =>
        .ok ({ success := false,
               error? := some ("Element with index " ++ jsIdxStr p.targetIndex ++ " not found") },
             st1, [])
      | some feature =>
        match getElementBySelector st1 feature.selector with
        | none =>
          .ok ({ success := false,
                 error? := some ("Could not find element: " ++ feature.selector) },
               st1, [])
        | some el =>
          let st2 := clearAllHighlights st1
          let st3 := highlightElement st2 el.eid
          let evs : List Ev :=
            [.clearHighlights, .scrollIntoView el.eid, .highlight el.eid 5000, .sleep 500]
          if p.action == "CLICK" then
            let st4 := movePointerToElement st3
            let cur := (st4.doc.find? (fun x => x.eid == el.eid)).getD el
            let st5 := markElementAsClicked st4 cur
            .ok ({ success := true, message? := some ("Clicked: " ++ feature.text) },
                 st5, evs ++ [.pointer el.eid, .sleep 800, .click el.eid])
          else if p.action == "TYPE" then
            if p.textInput.getD "" == "" then
              .ok ({ success := false, error? := some "No text to type" }, st3, evs)
            else
              let t := p.textInput.getD ""
              let st4 := { st3 with doc := updateElem st3.doc el.eid (fun x => { x with value := t }) }
              .ok ({ success := true,
                     message? := some ("Typed \"" ++ t ++ "\" into " ++ feature.text) },
                   st4,
                   evs ++ [.focus el.eid, .setValue el.eid t,
                           .dispatch el.eid "input", .dispatch el.eid "change"])
          else
            .ok ({ success := false, error? := some ("Unknown action: " ++ p.action) },
                 st3, evs)

/-! ### The event waiter -/

structure WaitPayload where
  event : String
  targetIndex : JsIdx := .undef
  selector? : Option String := none
  timeoutMs : Nat := 30000
deriving Repr, DecidableEq

/-- The listener/flag state of one pending waitForEvent promise. -/
structure Waiter where
  eid : Nat := 0
  clickL : Bool := false
  inputL : Bool := false
  scrollL : Bool := false
  done : Bool := false
deriving Repr, DecidableEq

/-- What the setup phase of waitForEvent produces: an immediately
resolved response, or a pending waiter. -/
inductive WaitSetup where
  | immediate (r : ContentResponse) (st : EngState)
  | waiting (w : Waiter) (st : EngState)
deriving Repr, DecidableEq

/-- waitForEvent setup: scroll waits globally; click/input resolve a
target (selector preferred, else a fresh extraction by index, which can
throw), fail fast with no selector or no element, and otherwise attach
the listeners for the requested event. -/
def waitForEventSetup (st : EngState) (p : WaitPayload) : Except String WaitSetup :=
  if p.event == "scroll" then
    .ok (.waiting { scrollL := true } st)
  else
    match
      (match p.selector? with
       | some s => if s ≠ "" then .ok (some s, st) else resolveByIndex st p
       | none => resolveByIndex st p :
        Except String (Option String × EngState)) with
    | .error err => .error err
    | .ok (none, st1) =>
      .ok (.immediate { success := false, error? := some "No selector/targetIndex provided" } st1)
    | .ok (some sel, st1) =>
      match getElementBySelector st1 sel with
      | none =>
        .ok (.immediate { success := false, error? := some ("Could not find element: " ++ sel) } st1)
      | some el =>
        if p.event == "click" then .ok (.waiting { eid := el.eid, clickL := true } st1)
        else if p.event == "input" then .ok (.waiting { eid := el.eid, inputL := true } st1)
        else
          .ok (.immediate { success := false, error? := some ("Unknown event: " ++ p.event) } st1)
where
  resolveByIndex (st : EngState) (p : WaitPayload) :
      Except String (Option String × EngState) :=
    match p.targetIndex with
    | .num n =>
      match extractPageFeatures st with
      | .error err => .error err
      | .ok (r, st1) =>
        match r.features.find? (fun f => f.index == n) with
        | some f => .ok (some f.selector, st1)
        | none => .ok (none, st1)
    | _ => .ok (none, st)

/-- The occurrences a pending waiter can observe. -/
inductive WEv where
  | evClick
  | evInput
  | evChange
  | evScroll
  | evTimer
deriving Repr, DecidableEq

/-- The finish closure: guarded by the done flag; tears down all
listeners and resolves exactly once. -/
def wFinish (w : Waiter) (r : ContentResponse) : Waiter × Option ContentResponse :=
  if w.done then (w, none)
  else ({ w with done := true, clickL := false, inputL := false, scrollL := false }, some r)

/-- One observed occurrence: listeners only react while attached; the
timer always calls finish (it is never cancelled, only neutralised by the
done flag). -/
def wStep (w : Waiter) : WEv → Waiter × Option ContentResponse
  | .evClick =>
    if w.clickL then wFinish w { success := true, message? := some "Detected click" }
    else (w, none)
  | .evInput =>
    if w.inputL then wFinish w { success := true, message? := some "Detected input" }
    else (w, none)
  | .evChange =>
    if w.inputL then wFinish w { success := true, message? := some "Detected input" }
    else (w, none)
  | .evScroll =>
    if w.scrollL then wFinish w { success := true, message? := some "Detected scroll" }
    else (w, none)
  | .evTimer => wFinish w { success := false, error? := some "Timed out" }

/-- Run a pending waiter over a sequence of occurrences, collecting every
resolution that happens. -/
def wRun (w : Waiter) : List WEv → Waiter × List ContentResponse
  | [] => (w, [])
  | ev :: rest =>
    ((wRun (wStep w ev).1 rest).1,
     (wStep w ev).2.toList ++ (wRun (wStep w ev).1 rest).2)

/-- Decidable equality for Except results, so concrete runs can be
checked by decide. -/
instance {e a : Type} [DecidableEq e] [DecidableEq a] : DecidableEq (Except e a) :=
  fun x y =>
    match x, y with
    | .ok u, .ok v =>
      if h : u = v then .isTrue (by rw [h]) else .isFalse (by simp [h])
    | .error u, .error v =>
      if h : u = v then .isTrue (by rw [h]) else .isFalse (by simp [h])
    | .ok _, .error _ => .isFalse (by simp)
    | .error _, .ok _ => .isFalse (by simp)

/-! ### Event-trace helpers -/

def isHighlightEv : Ev → Bool
  | .highlight _ _ => true
  | _ => false

def isScrollIntoViewEv : Ev → Bool
  | .scrollIntoView _ => true
  | _ => false

/-! ### Concrete documents used by the counterexamples and witnesses -/

/-- Two visible anchors: one whose only class name contains a dot, one
carrying the two classes that dot-splitting produces. -/
def punElemA : Elem :=
  { eid := 1, tag := "a", idAttr := "", classes := ["x.y"], href? := some "/a"
    innerText := "A", textContent := "A", rectW := 5, rectH := 5 }

def punElemB : Elem :=
  { eid := 2, tag := "a", idAttr := "", classes := ["x", "y"], href? := some "/b"
    innerText := "B", textContent := "B", rectW := 5, rectH := 5 }

def punSt : EngState := { doc := [punElemA, punElemB] }

/-- A visible text input with a unique name and no other handle. -/
def namedInput : Elem :=
  { eid := 4, tag := "input", idAttr := "", classes := [], name? := some "q"
    rectW := 4, rectH := 4 }

def namedInputSt : EngState := { doc := [namedInput] }

/-- A visible plain button with no id, classes or name: selector
generation always falls through to the synthetic marker for it. -/
def plainButton : Elem :=
  { eid := 3, tag := "button", idAttr := "", classes := []
    strippedText := "Buy", rectW := 4, rectH := 4 }

def plainButtonSt : EngState := { doc := [plainButton] }

/-- A visible button whose only class name would need CSS escaping, so
the class-selector candidate throws inside generateSelector. -/
def badClassButton : Elem :=
  { eid := 6, tag := "button", idAttr := "", classes := ["foo:bar"]
    strippedText := "Hi", rectW := 2, rectH := 2 }

def badClassSt : EngState := { doc := [badClassButton] }

/-- A visible input whose label comes from a 101-character name. -/
def longNameInput : Elem :=
  { eid := 8, tag := "input", idAttr := "", classes := []
    name? := some ⟨List.replicate 101 'a'⟩, rectW := 2, rectH := 2 }

def longNameSt : EngState := { doc := [longNameInput] }

/-- A visible bare anchor with no usable id, name or class handle. -/
def bareAnchor : Elem :=
  { eid := 7, tag := "a", idAttr := "", classes := [], href? := some "/x"
    innerText := "Go", textContent := "Go", rectW := 3, rectH := 4 }

def bareAnchorSt : EngState := { doc := [bareAnchor] }

/-! ### The choreography tail of executeAction -/

/-- The part of executeAction after the target element has been resolved:
clear highlights, scroll into view, highlight, pause, then dispatch on
the action. -/
def actionTail (p : ActionPayload) (st1 : EngState) (f : Feature) (el : Elem) :
    ContentResponse × EngState × List Ev :=
  let st3 := highlightElement (clearAllHighlights st1) el.eid
  let evs : List Ev :=
    [.clearHighlights, .scrollIntoView el.eid, .highlight el.eid 5000, .sleep 500]
  if p.action == "CLICK" then
    let st4 := movePointerToElement st3
    let cur := (st4.doc.find? (fun x => x.eid == el.eid)).getD el
    ({ success := true, message? := some ("Clicked: " ++ f.text) },
     markElementAsClicked st4 cur, evs ++ [.pointer el.eid, .sleep 800, .click el.eid])
  else if p.action == "TYPE" then
    if p.textInput.getD "" == "" then
      ({ success := false, error? := some "No text to type" }, st3, evs)
    else
      ({ success := true,
         message? := some ("Typed \"" ++ p.textInput.getD "" ++ "\" into " ++ f.text) },
       { st3 with doc := updateElem st3.doc el.eid (fun x => { x with value := p.textInput.getD "" }) },
       evs ++ [.focus el.eid, .setValue el.eid (p.textInput.getD ""),
               .dispatch el.eid "input", .dispatch el.eid "change"])
  else
    ({ success := false, error? := some ("Unknown action: " ++ p.action) }, st3, evs)

/-! ### Concrete runs used to witness the amended theorems -/

/-- The extraction response for namedInputSt. -/
def namedInputResp : ContentResponse :=
  { success := true, message? := some "Found 1 interactive elements"
    features := [{ index := 0, ftype := .input, text := "q", selector := "input[name=\"q\"]"
                   valueLen? := some 0, srcEid := 4 }] }

/-- The extraction response for plainButtonSt. -/
def plainButtonResp : ContentResponse :=
  { success := true, message? := some "Found 1 interactive elements"
    features := [{ index := 0, ftype := .button, text := "Buy"
                   selector := "[data-bb-id=\"bb-0\"]", srcEid := 3 }] }

/-- The state after extracting plainButtonSt: the button carries the
fresh marker and the cache holds its entry. -/
def plainButtonStamped : EngState :=
  { doc := [{ plainButton with dataBBId? := some "bb-0" }]
    cache := [("bb-0", 3)], counter := 1 }

/-- The extraction response for bareAnchorSt. -/
def bareAnchorResp : ContentResponse :=
  { success := true, message? := some "Found 1 interactive elements"
    features := [{ index := 0, ftype := .link, text := "Go"
                   selector := "[data-bb-id=\"bb-0\"]", href? := some "/x", srcEid := 7 }] }

/-- The state after extracting bareAnchorSt. -/
def bareAnchorStamped : EngState :=
  { doc := [{ bareAnchor with dataBBId? := some "bb-0" }]
    cache := [("bb-0", 7)], counter := 1 }

/-- A button resolvable by id selector, for the wait-race witness. -/
def waitBtn : Elem :=
  { eid := 9, tag := "button", idAttr := "b", classes := [], rectW := 2, rectH := 2 }

def waitSt : EngState := { doc := [waitBtn] }

/-- The extraction response for punSt (both anchors resolve their class
selector uniquely at generation time, so no marker is stamped and the
state is unchanged). -/
def punResp : ContentResponse :=
  { success := true, message? := some "Found 2 interactive elements"
    features :=
      [{ index := 0, ftype := .link, text := "A", selector := "a.x.y"
         href? := some "/a", srcEid := 1 },
       { index := 1, ftype := .link, text := "B", selector := "a.x.y"
         href? := some "/b", srcEid := 2 }] }

/-! ### When extraction cannot throw -/

/-- An id that can appear in the label[for] query without throwing. -/
def labelSafe (e : Elem) : Prop := e.idAttr ≠ "" → nameValOk e.idAttr = true

instance (e : Elem) : Decidable (labelSafe e) := by
  unfold labelSafe
  infer_instance

/-- The cache invariant the engine maintains: every cache key is a marker
bb-j minted by an earlier counter value. -/
def CacheBelow (st : EngState) : Prop :=
  ∀ p ∈ st.cache, ∃ j, j < st.counter ∧ p.1 = mkMarker j

def idAnchor : Elem :=
  { eid := 0, tag := "a", idAttr := "home", classes := [] }

def idAnchorSt : EngState := { doc := [idAnchor] }

/-! ### Theorems -/

theorem decValue_append (l : List Char) (c : Char) :
    decValue (l ++ [c]) = 10 * decValue l + (c.toNat - 48) := by
  simp [decValue, List.foldl_append]

theorem decDigit_decode (n : Nat) (h : n < 10) : (decDigit n).toNat - 48 = n := by
  interval_cases n <;> decide

theorem natToDecAux_decode : ∀ f n, n < f → decValue (natToDecAux f n) = n := by
  intro f
  induction f with
  | zero => intro n h; omega
  | succ g ih =>
    intro n h
    by_cases h10 : n < 10
    · simp [natToDecAux, h10, decValue, decDigit_decode n h10]
    · have hdiv : n / 10 < g := by
        have h1 : n / 10 < n := Nat.div_lt_self (by omega) (by omega)
        omega
      simp only [natToDecAux, if_neg h10]
      rw [decValue_append, ih (n / 10) hdiv, decDigit_decode (n % 10) (Nat.mod_lt n (by omega))]
      omega

theorem natToDec_decode (n : Nat) : decValue (natToDec n).data = n :=
  natToDecAux_decode (n + 1) n (Nat.lt_succ_self n)

theorem natToDec_injective : Function.Injective natToDec := by
  intro a b h
  have ha := natToDec_decode a
  have hb := natToDec_decode b
  rw [h] at ha
  omega

/-! ### Claim C1, counterexample -/

/-- Claim C1 as stated is false: in punSt the feature generated from the
element with class "x.y" receives the selector a.x.y (it was the unique
match of that string, but only because dot-splitting makes the string
match the other element), and resolving it immediately after extraction
returns the other element, never the originating one. -/
theorem c1_round_trip_fails :
    (match extractPageFeatures punSt with
     | .ok (r, st) => r.features.all
         (fun f => (getElementBySelector st f.selector).any (fun e => e.eid == f.srcEid))
     | .error _ => false) = false := by decide

/-! ### Claim C3, counterexample -/

/-- Claim C3 as stated is false: EXECUTE_ACTION TYPE with a valid
targetIndex and no textInput does return the "No text to type" failure,
but only after the element has been highlighted — its inline outline and
box-shadow styles are mutated before the error is returned, so the DOM is
not left unchanged. -/
theorem c3_type_no_text_fails :
    (match executeAction namedInputSt { action := "TYPE", targetIndex := .num 0 } with
     | .ok (r, st, _) =>
       r.error? == some "No text to type" && !(st.doc == namedInputSt.doc)
     | .error _ => false) = true := by decide

/-! ### Claim C4, counterexample -/

/-- Claim C4 as stated is false: a successful CLICK on the marker-selector
button records the selector [data-bb-id="bb-1"] in the clicked memo, but
the next extraction re-mints a fresh marker ([data-bb-id="bb-2"]) for the
same element, so the feature emitted for it reports
already_clicked = false. -/
theorem c4_clicked_memo_fails :
    (match executeAction plainButtonSt { action := "CLICK", targetIndex := .num 0 } with
     | .ok (r, st, _) =>
       r.success &&
         (match extractPageFeatures st with
          | .ok (r2, _) =>
            r2.features.any (fun f => f.srcEid == plainButton.eid) &&
              r2.features.all (fun f => f.srcEid == plainButton.eid → !f.alreadyClicked)
          | .error _ => false)
     | .error _ => false) = true := by decide

/-! ### Claim C5, counterexample -/

/-- Claim C5 as stated is false on the element-skipping conjunct: the
class-selector candidate for badClassButton throws (its class name needs
CSS escaping), the exception is caught, and the element is NOT skipped —
generation falls through to the synthetic marker and the element is
emitted in the (successful) extraction result. -/
theorem c5_totality_fails :
    cssIdentOk "foo:bar" = false ∧
    (match extractPageFeatures badClassSt with
     | .ok (r, _) =>
       r.success && r.features.any
         (fun f => f.srcEid == badClassButton.eid &&
                   f.selector == mkMarkerSel (mkMarker 0))
     | .error _ => false) = true := by constructor <;> decide

/-! ### Claim C6, counterexample -/

/-- Claim C6 as stated is false: in the trace of a CLICK the
scroll-into-view step occurs before any highlight step, not after it. -/
theorem c6_order_fails :
    (match executeAction plainButtonSt { action := "CLICK", targetIndex := .num 0 } with
     | .ok (_, _, tr) =>
       (tr.takeWhile (fun ev => !isHighlightEv ev)).any isScrollIntoViewEv
     | .error _ => false) = true := by decide

/-! ### Claim C7, counterexample -/

/-- Claim C7 as stated is false: input features are not truncated — an
input labelled by a 101-character name yields a feature whose text has
101 characters. -/
theorem c7_label_len_fails :
    (match extractPageFeatures longNameSt with
     | .ok (r, _) => r.features.any (fun f => 100 < f.text.length)
     | .error _ => false) = true := by decide

/-! ### Claim C8, counterexample -/

/-- Claim C8 as stated is false for an absent (undefined) targetIndex:
the targetIndex === null test does not fire, extraction runs (stamping
the document and growing the cache, so the DOM is accessed and mutated),
and the response is the not-found error interpolating "undefined", not
the "No target element specified" failure. -/
theorem c8_missing_target_fails :
    (match executeAction bareAnchorSt { action := "CLICK", targetIndex := .undef } with
     | .ok (r, st, _) =>
       r.error? == some "Element with index undefined not found" &&
         !(r.error? == some "No target element specified") &&
         !(st == bareAnchorSt)
     | .error _ => false) = true := by decide

/-! ### Claim C10 -/

/-- Claim C10: extraction is not read-only.  On a document containing a
visible interactive element with no usable id, name or class handle,
extraction stamps a fresh data-bb-id marker on the element and appends a
cache entry; a second extraction over the resulting document stamps a
fresh, distinct marker id and appends another entry. -/
theorem c10_extraction_mutates :
    bareAnchor.dataBBId? = none ∧
    (match extractPageFeatures bareAnchorSt with
     | .ok (_, st1) =>
       st1.doc.map Elem.dataBBId? == [some "bb-0"] &&
         st1.cache == [("bb-0", bareAnchor.eid)] && st1.counter == 1 &&
         (match extractPageFeatures st1 with
          | .ok (_, st2) =>
            st2.doc.map Elem.dataBBId? == [some "bb-1"] &&
              !("bb-1" == "bb-0") &&
              st2.cache == [("bb-0", bareAnchor.eid), ("bb-1", bareAnchor.eid)] &&
              st2.counter == 2
          | .error _ => false)
     | .error _ => false) = true := by constructor <;> decide

/-! ### Small supporting lemmas -/

theorem string_beq_false_of_ne {a b : String} (h : a ≠ b) : (a == b) = false := by
  simpa using h

theorem mem_of_querySelStr {doc : List Elem} {s : String} {e : Elem}
    (h : querySelStr doc s = some e) : e ∈ doc := by
  unfold querySelStr at h
  split at h
  · split at h
    · exact List.mem_of_find?_eq_some h
    · exact absurd h (by simp)
  · split at h
    · split at h
      · exact List.mem_of_find?_eq_some h
      · exact absurd h (by simp)
    · split at h
      · split at h
        · split at h
          · exact List.mem_of_find?_eq_some h
          · exact absurd h (by simp)
        · exact absurd h (by simp)
      · split at h
        · split at h
          · exact List.mem_of_find?_eq_some h
          · exact absurd h (by simp)
        · exact absurd h (by simp)

theorem mem_of_getElementBySelector {st : EngState} {sel : String} {e : Elem}
    (h : getElementBySelector st sel = some e) : e ∈ st.doc := by
  unfold getElementBySelector at h
  split at h
  · split at h
    · split at h
      · rename_i e1 hfind
        split at h
        · cases h
          exact List.mem_of_find?_eq_some hfind
        · exact mem_of_querySelStr h
      · exact mem_of_querySelStr h
    · exact mem_of_querySelStr h
  · exact mem_of_querySelStr h

theorem updateElem_map_eid {doc : List Elem} {eid : Nat} {g : Elem → Elem}
    (hg : ∀ x, (g x).eid = x.eid) :
    (updateElem doc eid g).map Elem.eid = doc.map Elem.eid := by
  unfold updateElem
  rw [List.map_map]
  apply List.map_congr_left
  intro x _
  by_cases h : x.eid = eid <;> simp [h, hg]

theorem clearAllHighlights_map_eid (st : EngState) :
    (clearAllHighlights st).doc.map Elem.eid = st.doc.map Elem.eid := by
  unfold clearAllHighlights
  simp only
  generalize st.doc = d
  induction st.highlighted generalizing d with
  | nil => rfl
  | cons hr rest ih =>
    rw [List.foldl_cons, ih]
    exact updateElem_map_eid (fun x => rfl)

theorem highlightElement_outline {st : EngState} {eid : Nat}
    (h : eid ∈ st.doc.map Elem.eid) :
    ∃ x ∈ (highlightElement st eid).doc,
      x.eid = eid ∧ x.outline = "3px solid #ff0000" := by
  obtain ⟨y, hy, hyeid⟩ := List.mem_map.mp h
  unfold highlightElement updateElem
  refine ⟨if y.eid == eid then
      { y with outline := "3px solid #ff0000",
               boxShadow := "0 0 0 4px rgba(255, 0, 0, 0.35)" } else y, ?_, ?_⟩
  · simp only
    exact List.mem_map.mpr ⟨y, hy, rfl⟩
  · simp [hyeid]

theorem find?_jsIdxEq_num {fs : List Feature} {tgt : JsIdx} {f : Feature}
    (h : fs.find? (fun g => jsIdxEq g.index tgt) = some f) : tgt = .num f.index := by
  have := List.find?_some h
  cases tgt with
  | num n => simp [jsIdxEq] at this; simp [this]
  | null => simp [jsIdxEq] at this
  | undef => simp [jsIdxEq] at this

/-! ### Claim C8, amended theorem -/

/-- Claim C8, amended: for CLICK/TYPE (indeed for any action other than
SCROLL and WAIT), an explicitly null targetIndex yields the
"No target element specified" failure with no extraction and no state
change; but an absent (undefined) targetIndex is not caught by the
targetIndex === null test — extraction runs first, the index lookup finds
nothing, and the response is the not-found error interpolating
"undefined". -/
theorem c8_missing_target_amended (st : EngState) (p : ActionPayload)
    (hs : p.action ≠ "SCROLL") (hw : p.action ≠ "WAIT") :
    (p.targetIndex = .null →
      executeAction st p =
        .ok ({ success := false, error? := some "No target element specified" }, st, [])) ∧
    (p.targetIndex = .undef →
      ∀ r st1, extractPageFeatures st = .ok (r, st1) →
        executeAction st p =
          .ok ({ success := false,
                 error? := some "Element with index undefined not found" }, st1, [])) := by
  constructor
  · intro hnull
    unfold executeAction
    rw [string_beq_false_of_ne hs, string_beq_false_of_ne hw]
    simp [hnull]
  · intro hundef r st1 hex
    unfold executeAction
    rw [string_beq_false_of_ne hs, string_beq_false_of_ne hw]
    have hnn : (p.targetIndex == JsIdx.null) = false := by
      rw [hundef]; rfl
    rw [if_neg (by simp [hnn]), hex]
    have hfind : r.features.find? (fun f => jsIdxEq f.index p.targetIndex) = none := by
      rw [List.find?_eq_none]
      intro f _
      rw [hundef]
      simp [jsIdxEq]
    rw [hundef] at hfind
    rw [hundef]
    simp only [hfind]
    rfl

/-- When the target resolves, executeAction is exactly the choreography
tail. -/
theorem executeAction_eq_actionTail (st : EngState) (p : ActionPayload)
    (hs : p.action ≠ "SCROLL") (hw : p.action ≠ "WAIT")
    (r : ContentResponse) (st1 : EngState)
    (hex : extractPageFeatures st = .ok (r, st1))
    (f : Feature) (hf : r.features.find? (fun g => jsIdxEq g.index p.targetIndex) = some f)
    (el : Elem) (hel : getElementBySelector st1 f.selector = some el) :
    executeAction st p = .ok (actionTail p st1 f el) := by
  have hnum := find?_jsIdxEq_num hf
  have hnn : (p.targetIndex == JsIdx.null) = false := by rw [hnum]; rfl
  unfold executeAction
  rw [string_beq_false_of_ne hs, string_beq_false_of_ne hw]
  rw [if_neg (by simp), if_neg (by simp), if_neg (by simp [hnn]), hex]
  simp only [hf, hel]
  unfold actionTail
  by_cases h1 : (p.action == "CLICK") = true <;>
    by_cases h2 : (p.action == "TYPE") = true <;>
      by_cases h3 : (p.textInput.getD "" == "") = true <;>
        simp [h1, h2, h3]

/-! ### Claim C3, amended theorem -/

/-- Claim C3, amended: EXECUTE_ACTION TYPE with a resolvable targetIndex
and no textInput does return exactly the {success:false, error:"No text
to type"} failure and dispatches no input events, but only after the
re-extraction and the full choreography prefix (clear highlights, scroll
into view, highlight, 500ms pause) has run: the target element's inline
styles carry the forced highlight when the error is returned, so the DOM
is not left unchanged. -/
theorem c3_type_no_text_amended (st : EngState) (p : ActionPayload)
    (ha : p.action = "TYPE") (ht : p.textInput = none)
    (r : ContentResponse) (st1 : EngState)
    (hex : extractPageFeatures st = .ok (r, st1))
    (f : Feature) (hf : r.features.find? (fun g => jsIdxEq g.index p.targetIndex) = some f)
    (el : Elem) (hel : getElementBySelector st1 f.selector = some el) :
    executeAction st p =
      .ok ({ success := false, error? := some "No text to type" },
           highlightElement (clearAllHighlights st1) el.eid,
           [.clearHighlights, .scrollIntoView el.eid, .highlight el.eid 5000, .sleep 500]) ∧
    ∃ x ∈ (highlightElement (clearAllHighlights st1) el.eid).doc,
      x.eid = el.eid ∧ x.outline = "3px solid #ff0000" := by
  constructor
  · rw [executeAction_eq_actionTail st p (by rw [ha]; decide) (by rw [ha]; decide)
        r st1 hex f hf el hel]
    unfold actionTail
    rw [ha, ht]
    rfl
  · apply highlightElement_outline
    rw [clearAllHighlights_map_eid]
    exact List.mem_map.mpr ⟨el, mem_of_getElementBySelector hel, rfl⟩

/-! ### Claim C6, amended theorem -/

/-- Claim C6, amended: within one executeAction call for CLICK or TYPE,
the DOM-affecting steps occur strictly in the order clear-highlights,
then scroll-into-view, then highlight, then the 500ms pause, then the
action itself (the spec sentence putting highlight before scroll does not
match the code; its own component description has the code order). -/
theorem c6_order_amended (st : EngState) (p : ActionPayload)
    (ha : p.action = "CLICK" ∨ p.action = "TYPE")
    (r : ContentResponse) (st1 : EngState)
    (hex : extractPageFeatures st = .ok (r, st1))
    (f : Feature) (hf : r.features.find? (fun g => jsIdxEq g.index p.targetIndex) = some f)
    (el : Elem) (hel : getElementBySelector st1 f.selector = some el) :
    ∃ r2 st2 rest,
      executeAction st p =
        .ok (r2, st2,
          [.clearHighlights, .scrollIntoView el.eid, .highlight el.eid 5000, .sleep 500] ++ rest) ∧
      (p.action = "CLICK" → rest = [.pointer el.eid, .sleep 800, .click el.eid]) ∧
      (p.action = "TYPE" → p.textInput.getD "" = "" → rest = []) ∧
      (p.action = "TYPE" → ∀ t, p.textInput = some t → t ≠ "" →
        rest = [.focus el.eid, .setValue el.eid t,
                .dispatch el.eid "input", .dispatch el.eid "change"]) := by
  have hs : p.action ≠ "SCROLL" := by rcases ha with h | h <;> rw [h] <;> decide
  have hw : p.action ≠ "WAIT" := by rcases ha with h | h <;> rw [h] <;> decide
  have heq := executeAction_eq_actionTail st p hs hw r st1 hex f hf el hel
  rcases ha with h | h
  · have htail : actionTail p st1 f el =
        ({ success := true, message? := some ("Clicked: " ++ f.text) },
         markElementAsClicked (movePointerToElement (highlightElement (clearAllHighlights st1) el.eid))
           (((movePointerToElement (highlightElement (clearAllHighlights st1) el.eid)).doc.find?
               (fun x => x.eid == el.eid)).getD el),
         [.clearHighlights, .scrollIntoView el.eid, .highlight el.eid 5000, .sleep 500] ++
           [.pointer el.eid, .sleep 800, .click el.eid]) := by
      unfold actionTail
      rw [h]
      rfl
    refine ⟨_, _, [.pointer el.eid, .sleep 800, .click el.eid],
      by rw [heq, htail], fun _ => rfl, ?_, ?_⟩
    · intro hT; rw [h] at hT; exact absurd hT (by decide)
    · intro hT; rw [h] at hT; exact absurd hT (by decide)
  · by_cases hempty : p.textInput.getD "" = ""
    · have htail : actionTail p st1 f el =
          ({ success := false, error? := some "No text to type" },
           highlightElement (clearAllHighlights st1) el.eid,
           [.clearHighlights, .scrollIntoView el.eid, .highlight el.eid 5000, .sleep 500] ++
             ([] : List Ev)) := by
        unfold actionTail
        rw [h]
        simp [hempty]
      refine ⟨_, _, [], by rw [heq, htail], ?_, fun _ _ => rfl, ?_⟩
      · intro hC; rw [h] at hC; exact absurd hC (by decide)
      · intro _ t hsome hne
        rw [hsome] at hempty
        simp at hempty
        exact absurd hempty hne
    · have htail : actionTail p st1 f el =
          ({ success := true,
             message? := some ("Typed \"" ++ p.textInput.getD "" ++ "\" into " ++ f.text) },
           { highlightElement (clearAllHighlights st1) el.eid with
             doc := updateElem (highlightElement (clearAllHighlights st1) el.eid).doc el.eid
               (fun x => { x with value := p.textInput.getD "" }) },
           [.clearHighlights, .scrollIntoView el.eid, .highlight el.eid 5000, .sleep 500] ++
             [.focus el.eid, .setValue el.eid (p.textInput.getD ""),
              .dispatch el.eid "input", .dispatch el.eid "change"]) := by
        unfold actionTail
        rw [h]
        simp [hempty]
      refine ⟨_, _,
        [.focus el.eid, .setValue el.eid (p.textInput.getD ""),
         .dispatch el.eid "input", .dispatch el.eid "change"],
        by rw [heq, htail], ?_, ?_, ?_⟩
      · intro hC; rw [h] at hC; exact absurd hC (by decide)
      · intro _ hemp; exact absurd hemp hempty
      · intro _ t hsome hne
        rw [hsome]
        simp

/-! ### Witnesses -/

theorem c8_missing_target_amended_witness :
    executeAction bareAnchorSt { action := "CLICK", targetIndex := JsIdx.null } =
      .ok ({ success := false, error? := some "No target element specified" },
           bareAnchorSt, []) ∧
    executeAction bareAnchorSt { action := "CLICK", targetIndex := JsIdx.undef } =
      .ok ({ success := false, error? := some "Element with index undefined not found" },
           bareAnchorStamped, []) :=
  ⟨(c8_missing_target_amended bareAnchorSt { action := "CLICK", targetIndex := JsIdx.null }
      (by decide) (by decide)).1 rfl,
   (c8_missing_target_amended bareAnchorSt { action := "CLICK", targetIndex := JsIdx.undef }
      (by decide) (by decide)).2 rfl bareAnchorResp bareAnchorStamped (by decide)⟩

theorem c3_type_no_text_amended_witness :
    executeAction namedInputSt { action := "TYPE", targetIndex := JsIdx.num 0 } =
      .ok ({ success := false, error? := some "No text to type" },
           highlightElement (clearAllHighlights namedInputSt) namedInput.eid,
           [.clearHighlights, .scrollIntoView namedInput.eid,
            .highlight namedInput.eid 5000, .sleep 500]) :=
  (c3_type_no_text_amended namedInputSt { action := "TYPE", targetIndex := JsIdx.num 0 }
    rfl rfl namedInputResp namedInputSt (by decide)
    { index := 0, ftype := .input, text := "q", selector := "input[name=\"q\"]"
      valueLen? := some 0, srcEid := 4 }
    (by decide) namedInput (by decide)).1

theorem c6_order_amended_witness :
    (executeAction plainButtonSt { action := "CLICK", targetIndex := JsIdx.num 0 }).toOption.map
        (fun q => q.2.2) =
      some ([.clearHighlights, .scrollIntoView 3, .highlight 3 5000, .sleep 500] ++
            [.pointer 3, .sleep 800, .click 3]) := by
  obtain ⟨r2, st2, rest, h1, h2, _, _⟩ :=
    c6_order_amended plainButtonSt { action := "CLICK", targetIndex := JsIdx.num 0 }
      (Or.inl rfl) plainButtonResp plainButtonStamped (by decide)
      { index := 0, ftype := .button, text := "Buy"
        selector := "[data-bb-id=\"bb-0\"]", srcEid := 3 }
      (by decide) { plainButton with dataBBId? := some "bb-0" } (by decide)
  rw [h2 rfl] at h1
  rw [h1]
  rfl

/-! ### Waiter lemmas -/

/-- The listener configuration waitForEventSetup installs for a pending
click or input wait. -/
theorem waitForEventSetup_waiting (st : EngState) (p : WaitPayload) (w : Waiter)
    (st1 : EngState) (hne : p.event ≠ "scroll")
    (h : waitForEventSetup st p = .ok (.waiting w st1)) :
    w.done = false ∧ w.scrollL = false ∧
    (p.event = "click" → w.clickL = true ∧ w.inputL = false) ∧
    (p.event = "input" → w.inputL = true ∧ w.clickL = false) := by
  unfold waitForEventSetup at h
  rw [string_beq_false_of_ne hne] at h
  simp only [Bool.false_eq_true, if_false] at h
  split at h
  · exact absurd h (by simp)
  · exact absurd h (by simp)
  · split at h
    · exact absurd h (by simp)
    · by_cases hclickev : (p.event == "click") = true
      · rw [if_pos hclickev] at h
        cases h
        have hc : p.event = "click" := by simpa using hclickev
        refine ⟨rfl, rfl, fun _ => ⟨rfl, rfl⟩, fun hin => ?_⟩
        rw [hin] at hc
        exact absurd hc (by decide)
      · rw [if_neg hclickev] at h
        by_cases hinputev : (p.event == "input") = true
        · rw [if_pos hinputev] at h
          cases h
          have hi : p.event = "input" := by simpa using hinputev
          refine ⟨rfl, rfl, fun hcl => ?_, fun _ => ⟨rfl, rfl⟩⟩
          rw [hcl] at hi
          exact absurd hi (by decide)
        · rw [if_neg hinputev] at h
          exact absurd h (by simp)

/-- Occurrences that do not fire an attached listener leave the waiter
untouched and resolve nothing. -/
theorem wRun_skip (w : Waiter) (pre : List WEv) (l : List WEv)
    (hskip : ∀ x ∈ pre, wStep w x = (w, none)) :
    wRun w (pre ++ l) = wRun w l := by
  induction pre with
  | nil => rfl
  | cons x rest ih =>
    rw [List.cons_append]
    simp only [wRun]
    rw [hskip x (List.mem_cons_self x rest)]
    simp [ih (fun y hy => hskip y (List.mem_cons_of_mem x hy))]

/-- Once the waiter is resolved and torn down, no later occurrence (more
clicks, more input, the never-cancelled timer) resolves anything. -/
theorem wRun_done (l : List WEv) (w : Waiter)
    (hd : w.done = true) (hc : w.clickL = false) (hi : w.inputL = false)
    (hs : w.scrollL = false) :
    wRun w l = (w, []) := by
  induction l with
  | nil => rfl
  | cons x rest ih =>
    have hstep : wStep w x = (w, none) := by
      cases x <;> simp [wStep, wFinish, hd, hc, hi, hs]
    simp only [wRun]
    rw [hstep]
    simp [ih]

/-! ### Claim C9 -/

/-- Claim C9: a waitForEvent call on click (or input) whose awaited event
fires before the timeout resolves success exactly once; the single done
flag makes every later occurrence (the still-armed timer, further clicks
or input) a no-op, and both listeners are removed at the first
resolution. -/
theorem c9_wait_race (st : EngState) (p : WaitPayload) (w : Waiter) (st1 : EngState)
    (hsetup : waitForEventSetup st p = .ok (.waiting w st1))
    (trig : WEv)
    (htrig : (p.event = "click" ∧ trig = .evClick) ∨
             (p.event = "input" ∧ (trig = .evInput ∨ trig = .evChange)))
    (pre post : List WEv)
    (hpre : ∀ x ∈ pre, x ≠ .evClick ∧ x ≠ .evInput ∧ x ≠ .evChange ∧ x ≠ .evTimer) :
    ∃ m, (wRun w (pre ++ trig :: post)).2 = [{ success := true, message? := some m }] ∧
      (wRun w (pre ++ trig :: post)).1.clickL = false ∧
      (wRun w (pre ++ trig :: post)).1.inputL = false := by
  have hne : p.event ≠ "scroll" := by
    rcases htrig with ⟨h, _⟩ | ⟨h, _⟩ <;> rw [h] <;> decide
  obtain ⟨hdone, hscroll, hclick, hinput⟩ :=
    waitForEventSetup_waiting st p w st1 hne hsetup
  have hskip : ∀ x ∈ pre, wStep w x = (w, none) := by
    intro x hx
    obtain ⟨h1, h2, h3, h4⟩ := hpre x hx
    cases x with
    | evClick => exact absurd rfl h1
    | evInput => exact absurd rfl h2
    | evChange => exact absurd rfl h3
    | evTimer => exact absurd rfl h4
    | evScroll => simp [wStep, hscroll]
  rw [wRun_skip w pre (trig :: post) hskip]
  have hfire : ∃ m, wStep w trig =
      ({ w with done := true, clickL := false, inputL := false, scrollL := false },
       some { success := true, message? := some m }) := by
    rcases htrig with ⟨hev, htr⟩ | ⟨hev, htr⟩
    · obtain ⟨hcl, _⟩ := hclick hev
      exact ⟨"Detected click", by rw [htr]; simp [wStep, wFinish, hcl, hdone]⟩
    · obtain ⟨hin, _⟩ := hinput hev
      rcases htr with htr | htr <;>
        exact ⟨"Detected input", by rw [htr]; simp [wStep, wFinish, hin, hdone]⟩
  obtain ⟨m, hstep⟩ := hfire
  refine ⟨m, ?_⟩
  simp only [wRun]
  rw [hstep]
  rw [wRun_done post _ rfl rfl rfl rfl]
  simp

theorem c9_wait_race_witness :
    waitForEventSetup waitSt { event := "click", selector? := some "#b" } =
      .ok (.waiting { eid := 9, clickL := true } waitSt) ∧
    (wRun { eid := 9, clickL := true }
        ([.evScroll] ++ WEv.evClick :: [.evClick, .evTimer])).2.length = 1 ∧
    ((wRun { eid := 9, clickL := true }
        ([.evScroll] ++ WEv.evClick :: [.evClick, .evTimer])).2.all
          (fun r => r.success)) = true ∧
    (wRun { eid := 9, clickL := true }
        ([.evScroll] ++ WEv.evClick :: [.evClick, .evTimer])).1.clickL = false ∧
    (wRun { eid := 9, clickL := true }
        ([.evScroll] ++ WEv.evClick :: [.evClick, .evTimer])).1.inputL = false := by
  have hsetup : waitForEventSetup waitSt { event := "click", selector? := some "#b" } =
      .ok (.waiting { eid := 9, clickL := true } waitSt) := by decide
  obtain ⟨m, h1, h2, h3⟩ :=
    c9_wait_race waitSt { event := "click", selector? := some "#b" }
      { eid := 9, clickL := true } waitSt hsetup .evClick (Or.inl ⟨rfl, rfl⟩)
      [.evScroll] [.evClick, .evTimer] (by decide)
  exact ⟨hsetup, by rw [h1]; rfl, by rw [h1]; rfl, h2, h3⟩

/-! ### Step-level facts about pushes -/

/-- Whatever the link loop pushes has type link and truncated text. -/
theorem linkStep_push_shape {st : EngState} {idx : Nat} {seen seen1 : List String}
    {e : Elem} {f : Feature} {st1 : EngState}
    (h : linkStep st idx seen e = .push seen1 f st1) :
    f.ftype = .link ∧ f.text.data.length ≤ 100 := by
  unfold linkStep at h
  split at h
  · exact absurd h (by simp)
  · split at h
    · exact absurd h (by simp)
    · split at h
      · exact absurd h (by simp)
      · split at h
        · exact absurd h (by simp)
        · split at h
          · exact absurd h (by simp)
          · split at h
            · exact absurd h (by simp)
            · cases h
              exact ⟨rfl, by simp [jsTake]⟩

/-- Whatever the input loop pushes has type input. -/
theorem inputStep_push_shape {st : EngState} {idx : Nat} {e : Elem}
    {f : Feature} {st1 : EngState}
    (h : inputStep st idx e = .ok (.push f st1)) : f.ftype = .input := by
  unfold inputStep at h
  split at h
  · exact absurd h (by simp)
  · split at h
    · exact absurd h (by simp)
    · cases h
      rfl

/-- Whatever the button loop pushes has type button and truncated text. -/
theorem buttonStep_push_shape {st : EngState} {idx : Nat} {seenSels : List String}
    {e : Elem} {f : Feature} {st1 : EngState}
    (h : buttonStep st idx seenSels e = .push f st1) :
    f.ftype = .button ∧ f.text.data.length ≤ 100 := by
  unfold buttonStep at h
  split at h
  · exact absurd h (by simp)
  · split at h
    · exact absurd h (by simp)
    · split at h
      · exact absurd h (by simp)
      · split at h
        · exact absurd h (by simp)
        · split at h
          · exact absurd h (by simp)
          · cases h
            exact ⟨rfl, by simp [jsTake]⟩

/-! ### Collector bounds and shapes -/

/-- Features coming out of the link loop are from the accumulator or are
link pushes. -/
theorem collectLinks_shape : ∀ (cands : List Elem) (st : EngState) (idx : Nat)
    (seen : List String) (acc : List Feature),
    (∀ f ∈ acc, f.ftype = .link ∧ f.text.data.length ≤ 100) →
    ∀ f ∈ (collectLinks st idx seen acc cands).1,
      f.ftype = .link ∧ f.text.data.length ≤ 100 := by
  intro cands
  induction cands with
  | nil => intro st idx seen acc h; simpa [collectLinks] using h
  | cons e rest ih =>
    intro st idx seen acc h
    simp only [collectLinks]
    split
    · exact h
    · split
      · exact ih _ _ _ _ h
      · rename_i seen1 f st1 hstep
        apply ih
        intro g hg
        rcases List.mem_append.mp hg with hg | hg
        · exact h g hg
        · rcases List.mem_singleton.mp hg with rfl
          exact linkStep_push_shape hstep

/-- The link loop accepts at most 60 features. -/
theorem collectLinks_length : ∀ (cands : List Elem) (st : EngState) (idx : Nat)
    (seen : List String) (acc : List Feature), acc.length ≤ 60 →
    (collectLinks st idx seen acc cands).1.length ≤ 60 := by
  intro cands
  induction cands with
  | nil => intro st idx seen acc h; simpa [collectLinks] using h
  | cons e rest ih =>
    intro st idx seen acc h
    simp only [collectLinks]
    split
    · exact h
    · rename_i h60
      split
      · exact ih _ _ _ _ h
      · apply ih
        simp only [List.length_append, List.length_cons, List.length_nil]
        omega

/-- Features coming out of the input loop are from the accumulator or
are input pushes. -/
theorem collectInputs_shape : ∀ (cands : List Elem) (st : EngState) (idx : Nat)
    (acc : List Feature) (out : List Feature × Nat × EngState),
    collectInputs st idx acc cands = .ok out →
    (∀ f ∈ acc, f.ftype = .input) →
    ∀ f ∈ out.1, f.ftype = .input := by
  intro cands
  induction cands with
  | nil =>
    intro st idx acc out hok h
    cases hok
    exact h
  | cons e rest ih =>
    intro st idx acc out hok h
    simp only [collectInputs] at hok
    split at hok
    · cases hok; exact h
    · split at hok
      · exact absurd hok (by simp)
      · exact ih _ _ _ _ hok h
      · rename_i f st1 hstep
        apply ih _ _ _ _ hok
        intro g hg
        rcases List.mem_append.mp hg with hg | hg
        · exact h g hg
        · rcases List.mem_singleton.mp hg with rfl
          exact inputStep_push_shape hstep

/-- The input loop accepts at most 75 features. -/
theorem collectInputs_length : ∀ (cands : List Elem) (st : EngState) (idx : Nat)
    (acc : List Feature) (out : List Feature × Nat × EngState),
    collectInputs st idx acc cands = .ok out →
    acc.length ≤ 75 → out.1.length ≤ 75 := by
  intro cands
  induction cands with
  | nil =>
    intro st idx acc out hok h
    cases hok
    exact h
  | cons e rest ih =>
    intro st idx acc out hok h
    simp only [collectInputs] at hok
    split at hok
    · cases hok; exact h
    · split at hok
      · exact absurd hok (by simp)
      · exact ih _ _ _ _ hok h
      · apply ih _ _ _ _ hok
        simp only [List.length_append, List.length_cons, List.length_nil]
        omega

/-- Features coming out of the button loop are from the accumulator or
are button pushes. -/
theorem collectButtons_shape : ∀ (cands : List Elem) (st : EngState) (idx : Nat)
    (seenSels : List String) (acc : List Feature),
    (∀ f ∈ acc, f.ftype = .button ∧ f.text.data.length ≤ 100) →
    ∀ f ∈ (collectButtons st idx seenSels acc cands).1,
      f.ftype = .button ∧ f.text.data.length ≤ 100 := by
  intro cands
  induction cands with
  | nil => intro st idx seenSels acc h; simpa [collectButtons] using h
  | cons e rest ih =>
    intro st idx seenSels acc h
    simp only [collectButtons]
    split
    · exact h
    · split
      · exact ih _ _ _ _ h
      · exact ih _ _ _ _ h
      · rename_i f st1 hstep
        apply ih
        intro g hg
        rcases List.mem_append.mp hg with hg | hg
        · exact h g hg
        · rcases List.mem_singleton.mp hg with rfl
          exact buttonStep_push_shape hstep

/-- The button loop accepts at most 75 features. -/
theorem collectButtons_length : ∀ (cands : List Elem) (st : EngState) (idx : Nat)
    (seenSels : List String) (acc : List Feature), acc.length ≤ 75 →
    (collectButtons st idx seenSels acc cands).1.length ≤ 75 := by
  intro cands
  induction cands with
  | nil => intro st idx seenSels acc h; simpa [collectButtons] using h
  | cons e rest ih =>
    intro st idx seenSels acc h
    simp only [collectButtons]
    split
    · exact h
    · split
      · exact ih _ _ _ _ h
      · exact ih _ _ _ _ h
      · apply ih
        simp only [List.length_append, List.length_cons, List.length_nil]
        omega

/-! ### Dedup and reindex lemmas -/

theorem dedupKeyed_sublist : ∀ (seen : List String) (l : List Feature),
    List.Sublist (dedupKeyed seen l) l := by
  intro seen l
  induction l generalizing seen with
  | nil => simp [dedupKeyed]
  | cons f rest ih =>
    simp only [dedupKeyed]
    split
    · exact (ih seen).cons f
    · exact (ih (featKey f :: seen)).cons₂ f

theorem dedupKeyed_key_notin : ∀ (seen : List String) (l : List Feature),
    ∀ f ∈ dedupKeyed seen l, featKey f ∉ seen := by
  intro seen l
  induction l generalizing seen with
  | nil => simp [dedupKeyed]
  | cons g rest ih =>
    intro f hf
    simp only [dedupKeyed] at hf
    split at hf
    · exact ih seen f hf
    · rename_i hnot
      rcases List.mem_cons.mp hf with rfl | hf
      · simpa using hnot
      · intro hmem
        exact ih (featKey g :: seen) f hf (List.mem_cons_of_mem _ hmem)

theorem dedupKeyed_pairwise : ∀ (seen : List String) (l : List Feature),
    (dedupKeyed seen l).Pairwise (fun f g => featKey f ≠ featKey g) := by
  intro seen l
  induction l generalizing seen with
  | nil => simp [dedupKeyed]
  | cons g rest ih =>
    simp only [dedupKeyed]
    split
    · exact ih seen
    · refine List.Pairwise.cons ?_ (ih (featKey g :: seen))
      intro f hf heq
      exact dedupKeyed_key_notin _ _ f hf (heq ▸ List.mem_cons_self _ _)

theorem reindexFrom_countP (p : Feature → Bool)
    (hp : ∀ (f : Feature) (k : Nat), p { f with index := k } = p f) :
    ∀ (n : Nat) (fs : List Feature), (reindexFrom n fs).countP p = fs.countP p := by
  intro n fs
  induction fs generalizing n with
  | nil => rfl
  | cons f rest ih =>
    simp only [reindexFrom, List.countP_cons, ih, hp]

theorem reindexFrom_mem : ∀ (n : Nat) (fs : List Feature) (f : Feature),
    f ∈ reindexFrom n fs → ∃ g ∈ fs, f = { g with index := f.index } := by
  intro n fs
  induction fs generalizing n with
  | nil => simp [reindexFrom]
  | cons g rest ih =>
    intro f hf
    simp only [reindexFrom] at hf
    rcases List.mem_cons.mp hf with rfl | hf
    · exact ⟨g, List.mem_cons_self _ _, rfl⟩
    · obtain ⟨g1, hg1, hfeq⟩ := ih (n + 1) f hf
      exact ⟨g1, List.mem_cons_of_mem _ hg1, hfeq⟩

theorem reindexFrom_pairwise_key : ∀ (n : Nat) (fs : List Feature),
    fs.Pairwise (fun f g => featKey f ≠ featKey g) →
    (reindexFrom n fs).Pairwise (fun f g => featKey f ≠ featKey g) := by
  intro n fs
  induction fs generalizing n with
  | nil => intro _; simp [reindexFrom]
  | cons f rest ih =>
    intro h
    rcases List.pairwise_cons.mp h with ⟨hf, hrest⟩
    simp only [reindexFrom]
    refine List.Pairwise.cons ?_ (ih (n + 1) hrest)
    intro g hg
    obtain ⟨g1, hg1, hgeq⟩ := reindexFrom_mem (n + 1) rest g hg
    rw [hgeq]
    exact hf g1 hg1

/-! ### Claim C2 -/

/-- Claim C2: any successful extraction returns at most 60 link features,
at most 75 input features and at most 75 button features, and no two
features of the returned list agree on all of type, text and
href-or-empty (the dedup filter keeps one feature per key, and equal
triples give equal keys). -/
theorem c2_budget_dedup (st : EngState) (r : ContentResponse) (st1 : EngState)
    (hex : extractPageFeatures st = .ok (r, st1)) :
    r.features.countP (fun f => f.ftype == FType.link) ≤ 60 ∧
    r.features.countP (fun f => f.ftype == FType.input) ≤ 75 ∧
    r.features.countP (fun f => f.ftype == FType.button) ≤ 75 ∧
    r.features.Pairwise (fun f g =>
      ¬(f.ftype = g.ftype ∧ f.text = g.text ∧ f.href?.getD "" = g.href?.getD "")) := by
  simp only [extractPageFeatures] at hex
  split at hex
  · exact absurd hex (by simp)
  · rename_i ir hir
    rw [Except.ok.injEq, Prod.mk.injEq] at hex
    obtain ⟨hr, hst1⟩ := hex
    have hfeat : r.features =
        reindex (dedupKeyed []
          ((collectLinks st 0 [] []
              (st.doc.filter productLinkPred ++ st.doc.filter otherLinkPred)).1 ++
            ir.1 ++
            (collectButtons ir.2.2 ir.2.1 [] []
              (ir.2.2.doc.filter actionButtonPred ++
               ir.2.2.doc.filter otherButtonPred)).1)) := by
      rw [← hr]
    set lfs := (collectLinks st 0 [] []
        (st.doc.filter productLinkPred ++ st.doc.filter otherLinkPred)).1 with hlfs
    set bfs := (collectButtons ir.2.2 ir.2.1 [] []
        (ir.2.2.doc.filter actionButtonPred ++
         ir.2.2.doc.filter otherButtonPred)).1 with hbfs
    have hlshape := collectLinks_shape
      (st.doc.filter productLinkPred ++ st.doc.filter otherLinkPred) st 0 [] [] (by simp)
    have hishape := collectInputs_shape _ _ _ [] ir hir (by simp)
    have hbshape := collectButtons_shape
      (ir.2.2.doc.filter actionButtonPred ++ ir.2.2.doc.filter otherButtonPred)
      ir.2.2 ir.2.1 [] [] (by simp)
    have hcount : ∀ (p : Feature → Bool),
        (hp : ∀ (f : Feature) (k : Nat), p { f with index := k } = p f) →
        r.features.countP p ≤ (lfs ++ ir.1 ++ bfs).countP p := by
      intro p hp
      rw [hfeat]
      unfold reindex
      rw [reindexFrom_countP p hp]
      exact (dedupKeyed_sublist [] _).countP_le p
    refine ⟨?_, ?_, ?_, ?_⟩
    · refine le_trans (hcount _ (fun f k => rfl)) ?_
      rw [List.countP_append, List.countP_append]
      have h1 : lfs.countP (fun f => f.ftype == FType.link) ≤ 60 :=
        le_trans (List.countP_le_length _) (collectLinks_length
          (st.doc.filter productLinkPred ++ st.doc.filter otherLinkPred) st 0 [] [] (by simp))
      have h2 : ir.1.countP (fun f => f.ftype == FType.link) = 0 := by
        rw [List.countP_eq_zero]
        intro f hf
        rw [hishape f hf]
        decide
      have h3 : bfs.countP (fun f => f.ftype == FType.link) = 0 := by
        rw [List.countP_eq_zero]
        intro f hf
        rw [(hbshape f hf).1]
        decide
      omega
    · refine le_trans (hcount _ (fun f k => rfl)) ?_
      rw [List.countP_append, List.countP_append]
      have h1 : lfs.countP (fun f => f.ftype == FType.input) = 0 := by
        rw [List.countP_eq_zero]
        intro f hf
        rw [(hlshape f hf).1]
        decide
      have h2 : ir.1.countP (fun f => f.ftype == FType.input) ≤ 75 :=
        le_trans (List.countP_le_length _) (collectInputs_length _ _ _ [] ir hir (by simp))
      have h3 : bfs.countP (fun f => f.ftype == FType.input) = 0 := by
        rw [List.countP_eq_zero]
        intro f hf
        rw [(hbshape f hf).1]
        decide
      omega
    · refine le_trans (hcount _ (fun f k => rfl)) ?_
      rw [List.countP_append, List.countP_append]
      have h1 : lfs.countP (fun f => f.ftype == FType.button) = 0 := by
        rw [List.countP_eq_zero]
        intro f hf
        rw [(hlshape f hf).1]
        decide
      have h2 : ir.1.countP (fun f => f.ftype == FType.button) = 0 := by
        rw [List.countP_eq_zero]
        intro f hf
        rw [hishape f hf]
        decide
      have h3 : bfs.countP (fun f => f.ftype == FType.button) ≤ 75 :=
        le_trans (List.countP_le_length _) (collectButtons_length
          (ir.2.2.doc.filter actionButtonPred ++ ir.2.2.doc.filter otherButtonPred)
          ir.2.2 ir.2.1 [] [] (by simp))
      omega
    · rw [hfeat]
      unfold reindex
      refine (reindexFrom_pairwise_key 0 _ (dedupKeyed_pairwise [] _)).imp ?_
      intro f g hne ⟨ht, htx, hh⟩
      exact hne (by unfold featKey; rw [ht, htx, hh])

/-! ### Claim C7, amended theorem -/

/-- Claim C7, amended: every link and button feature of a successful
extraction has a text of at most 100 characters (both loops truncate with
substring(0,100)); input features are not truncated — their text is the
raw label, name, placeholder or type attribute and can exceed 100
characters. -/
theorem c7_label_len_amended (st : EngState) (r : ContentResponse) (st1 : EngState)
    (hex : extractPageFeatures st = .ok (r, st1)) :
    ∀ f ∈ r.features, (f.ftype = .link ∨ f.ftype = .button) →
      f.text.data.length ≤ 100 := by
  simp only [extractPageFeatures] at hex
  split at hex
  · exact absurd hex (by simp)
  · rename_i ir hir
    rw [Except.ok.injEq, Prod.mk.injEq] at hex
    obtain ⟨hr, hst1⟩ := hex
    intro f hf hlb
    rw [← hr] at hf
    simp only at hf
    obtain ⟨g, hg, hfeq⟩ := reindexFrom_mem 0 _ f hf
    have hftype : f.ftype = g.ftype := by rw [hfeq]
    have htext : f.text = g.text := by rw [hfeq]
    rw [htext]
    have hmem : g ∈ (collectLinks st 0 [] []
        (st.doc.filter productLinkPred ++ st.doc.filter otherLinkPred)).1 ++
        ir.1 ++
        (collectButtons ir.2.2 ir.2.1 [] []
          (ir.2.2.doc.filter actionButtonPred ++
           ir.2.2.doc.filter otherButtonPred)).1 :=
      (dedupKeyed_sublist [] _).subset hg
    rcases List.mem_append.mp hmem with hmem | hmem
    · rcases List.mem_append.mp hmem with hmem | hmem
      · exact (collectLinks_shape
          (st.doc.filter productLinkPred ++ st.doc.filter otherLinkPred)
          st 0 [] [] (by simp) g hmem).2
      · have hin := collectInputs_shape _ _ _ [] ir hir (by simp) g hmem
        rw [hftype, hin] at hlb
        rcases hlb with hlb | hlb <;> cases hlb
    · exact (collectButtons_shape
        (ir.2.2.doc.filter actionButtonPred ++ ir.2.2.doc.filter otherButtonPred)
        ir.2.2 ir.2.1 [] [] (by simp) g hmem).2

theorem c2_budget_dedup_witness :
    extractPageFeatures punSt = Except.ok (punResp, punSt) ∧
    punResp.features.countP (fun f => f.ftype == FType.link) ≤ 60 ∧
    punResp.features.countP (fun f => f.ftype == FType.input) ≤ 75 ∧
    punResp.features.countP (fun f => f.ftype == FType.button) ≤ 75 ∧
    List.Pairwise (fun f g =>
      ¬(f.ftype = g.ftype ∧ f.text = g.text ∧ f.href?.getD "" = g.href?.getD ""))
      punResp.features :=
  ⟨by decide, c2_budget_dedup punSt punResp punSt (by decide)⟩

theorem c7_label_len_amended_witness :
    extractPageFeatures punSt = Except.ok (punResp, punSt) ∧
    ({ index := 0, ftype := .link, text := "A", selector := "a.x.y"
       href? := some "/a", srcEid := 1 } : Feature).text.data.length ≤ 100 :=
  ⟨by decide,
   c7_label_len_amended punSt punResp punSt (by decide)
     { index := 0, ftype := .link, text := "A", selector := "a.x.y"
       href? := some "/a", srcEid := 1 }
     (by decide) (Or.inl rfl)⟩

/-! ### How the engine's steps change the document

During extraction the only element field the engine writes is the
data-bb-id marker, so the document is invariant up to stripBB. -/

theorem updateElem_map_strip (doc : List Elem) (eid : Nat) (m : String) :
    (updateElem doc eid (fun x => { x with dataBBId? := some m })).map stripBB =
      doc.map stripBB := by
  unfold updateElem
  rw [List.map_map]
  apply List.map_congr_left
  intro x _
  by_cases h : x.eid = eid <;> simp [h, stripBB]

theorem generateSelector_doc_strip (st : EngState) (e : Elem) :
    ((generateSelector st e).2).doc.map stripBB = st.doc.map stripBB := by
  unfold generateSelector
  split
  · rfl
  · split
    · rfl
    · split
      · rfl
      · exact updateElem_map_strip st.doc e.eid (mkMarker st.counter)

/-- Inversion of a link push: the state is the selector-generation
state, and the selector/flags come from it. -/
theorem linkStep_push_inv {st : EngState} {idx : Nat} {seen seen1 : List String}
    {e : Elem} {f : Feature} {st1 : EngState}
    (h : linkStep st idx seen e = .push seen1 f st1) :
    st1 = (generateSelector st e).2 ∧ f.selector = (generateSelector st e).1 ∧
    f.srcEid = e.eid ∧
    f.alreadyClicked = ((generateSelector st e).2.clicked.contains f.selector) ∧
    isVisible e = true := by
  unfold linkStep at h
  split at h
  · exact absurd h (by simp)
  · split at h
    · exact absurd h (by simp)
    · split at h
      · exact absurd h (by simp)
      · split at h
        · exact absurd h (by simp)
        · rename_i hvis
          split at h
          · exact absurd h (by simp)
          · split at h
            · exact absurd h (by simp)
            · cases h
              exact ⟨rfl, rfl, rfl, rfl, by simpa using hvis⟩

/-- Inversion of an input push. -/
theorem inputStep_push_inv {st : EngState} {idx : Nat} {e : Elem}
    {f : Feature} {st1 : EngState}
    (h : inputStep st idx e = .ok (.push f st1)) :
    st1 = (generateSelector st e).2 ∧ f.selector = (generateSelector st e).1 ∧
    f.srcEid = e.eid ∧
    f.alreadyClicked = ((generateSelector st e).2.clicked.contains f.selector) ∧
    isVisible e = true := by
  unfold inputStep at h
  split at h
  · exact absurd h (by simp)
  · rename_i hvis
    split at h
    · exact absurd h (by simp)
    · cases h
      exact ⟨rfl, rfl, rfl, rfl, by simpa using hvis⟩

/-- Inversion of a duplicate-selector button skip. -/
theorem buttonStep_dup_inv {st : EngState} {idx : Nat} {seenSels : List String}
    {e : Elem} {st1 : EngState}
    (h : buttonStep st idx seenSels e = .dup st1) :
    st1 = (generateSelector st e).2 := by
  unfold buttonStep at h
  split at h
  · exact absurd h (by simp)
  · split at h
    · exact absurd h (by simp)
    · split at h
      · exact absurd h (by simp)
      · split at h
        · exact absurd h (by simp)
        · split at h
          · cases h; rfl
          · exact absurd h (by simp)

/-- Inversion of a button push, including the visibility facts the two
admission guards leave behind. -/
theorem buttonStep_push_inv {st : EngState} {idx : Nat} {seenSels : List String}
    {e : Elem} {f : Feature} {st1 : EngState}
    (h : buttonStep st idx seenSels e = .push f st1) :
    st1 = (generateSelector st e).2 ∧ f.selector = (generateSelector st e).1 ∧
    f.srcEid = e.eid ∧
    f.alreadyClicked = ((generateSelector st e).2.clicked.contains f.selector) ∧
    (actionButtonPred e = false → isVisible e = true) ∧
    (actionButtonPred e = true → (0 < e.rectW ∨ 0 < e.rectH) ∨ e.inBody = true) := by
  unfold buttonStep at h
  split at h
  · exact absurd h (by simp)
  · rename_i hg1
    split at h
    · exact absurd h (by simp)
    · rename_i hg2
      split at h
      · exact absurd h (by simp)
      · split at h
        · exact absurd h (by simp)
        · split at h
          · exact absurd h (by simp)
          · cases h
            refine ⟨rfl, rfl, rfl, rfl, ?_, ?_⟩
            · intro hact
              simp [hact] at hg1
              exact hg1
            · intro hact
              simp [hact] at hg2
              rcases Nat.eq_zero_or_pos e.rectW with hw | hw
              · rcases Nat.eq_zero_or_pos e.rectH with hh | hh
                · right; exact hg2 hw hh
                · left; right; exact hh
              · left; left; exact hw

theorem collectLinks_doc_strip : ∀ (cands : List Elem) (st : EngState) (idx : Nat)
    (seen : List String) (acc : List Feature),
    ((collectLinks st idx seen acc cands).2.2).doc.map stripBB = st.doc.map stripBB := by
  intro cands
  induction cands with
  | nil => intro st idx seen acc; rfl
  | cons e rest ih =>
    intro st idx seen acc
    simp only [collectLinks]
    split
    · rfl
    · split
      · exact ih _ _ _ _
      · rename_i seen1 f st1 hstep
        rw [ih _ _ _ _, (linkStep_push_inv hstep).1, generateSelector_doc_strip]

theorem collectInputs_doc_strip : ∀ (cands : List Elem) (st : EngState) (idx : Nat)
    (acc : List Feature) (out : List Feature × Nat × EngState),
    collectInputs st idx acc cands = .ok out →
    out.2.2.doc.map stripBB = st.doc.map stripBB := by
  intro cands
  induction cands with
  | nil =>
    intro st idx acc out hok
    cases hok
    rfl
  | cons e rest ih =>
    intro st idx acc out hok
    simp only [collectInputs] at hok
    split at hok
    · cases hok; rfl
    · split at hok
      · exact absurd hok (by simp)
      · exact ih _ _ _ _ hok
      · rename_i f st1 hstep
        rw [ih _ _ _ _ hok, (inputStep_push_inv hstep).1, generateSelector_doc_strip]

theorem collectButtons_doc_strip : ∀ (cands : List Elem) (st : EngState) (idx : Nat)
    (seenSels : List String) (acc : List Feature),
    ((collectButtons st idx seenSels acc cands).2.2).doc.map stripBB =
      st.doc.map stripBB := by
  intro cands
  induction cands with
  | nil => intro st idx seenSels acc; rfl
  | cons e rest ih =>
    intro st idx seenSels acc
    simp only [collectButtons]
    split
    · rfl
    · split
      · exact ih _ _ _ _
      · rename_i st1 hstep
        rw [ih _ _ _ _, buttonStep_dup_inv hstep, generateSelector_doc_strip]
      · rename_i f st1 hstep
        rw [ih _ _ _ _, (buttonStep_push_inv hstep).1, generateSelector_doc_strip]

theorem findLabelForE_ok (doc : List Elem) (e : Elem) (h : labelSafe e) :
    ∃ v, findLabelForE doc e = .ok v := by
  unfold findLabelForE
  split
  · rename_i hne
    rw [if_pos (h hne)]
    split
    · exact ⟨_, rfl⟩
    · exact ⟨_, rfl⟩
  · exact ⟨_, rfl⟩

theorem inputStep_ok (st : EngState) (idx : Nat) (e : Elem) (h : labelSafe e) :
    ∃ step, inputStep st idx e = .ok step := by
  unfold inputStep
  split
  · exact ⟨_, rfl⟩
  · obtain ⟨v, hv⟩ := findLabelForE_ok st.doc e h
    rw [hv]
    exact ⟨_, rfl⟩

theorem collectInputs_ok : ∀ (cands : List Elem) (st : EngState) (idx : Nat)
    (acc : List Feature), (∀ e ∈ cands, labelSafe e) →
    ∃ out, collectInputs st idx acc cands = .ok out := by
  intro cands
  induction cands with
  | nil => intro st idx acc _; exact ⟨_, rfl⟩
  | cons e rest ih =>
    intro st idx acc h
    simp only [collectInputs]
    split
    · exact ⟨_, rfl⟩
    · obtain ⟨step, hstep⟩ := inputStep_ok st idx e (h e (List.mem_cons_self _ _))
      rw [hstep]
      have hrest : ∀ x ∈ rest, labelSafe x := fun x hx => h x (List.mem_cons_of_mem _ hx)
      cases step with
      | skip => exact ih _ _ _ hrest
      | push f st1 => exact ih _ _ _ hrest

/-! ### Claim C5, amended theorem -/

/-- Claim C5, amended: a per-candidate selector exception inside
generateSelector is caught and generation falls through to the next
strategy (ultimately the synthetic marker, which never fails), so the
element is emitted, not skipped; and extraction returns a success object
whenever no visible input element carries an id whose label[for] query
would throw — that query is the one unguarded selector interpolation, so
extraction is total except for it. -/
theorem c5_totality_amended (st : EngState)
    (h : ∀ e ∈ st.doc, inputPred e = true → labelSafe e) :
    ∃ r st1, extractPageFeatures st = .ok (r, st1) ∧ r.success = true := by
  simp only [extractPageFeatures]
  have hstrip := collectLinks_doc_strip
    (st.doc.filter productLinkPred ++ st.doc.filter otherLinkPred) st 0 [] []
  have hsafe : ∀ e ∈ (collectLinks st 0 [] []
      (st.doc.filter productLinkPred ++ st.doc.filter otherLinkPred)).2.2.doc.filter inputPred,
      labelSafe e := by
    intro e he
    rcases List.mem_filter.mp he with ⟨hmem, hpred⟩
    have hmm : stripBB e ∈ (collectLinks st 0 [] []
        (st.doc.filter productLinkPred ++ st.doc.filter otherLinkPred)).2.2.doc.map stripBB :=
      List.mem_map_of_mem stripBB hmem
    rw [hstrip] at hmm
    obtain ⟨e0, he0, hse⟩ := List.mem_map.mp hmm
    have hid : e0.idAttr = e.idAttr := by
      have hc := congrArg Elem.idAttr hse
      exact hc
    have htag : e0.tag = e.tag := by
      have hc := congrArg Elem.tag hse
      exact hc
    have htype : e0.typeAttr? = e.typeAttr? := by
      have hc := congrArg Elem.typeAttr? hse
      exact hc
    have hpred0 : inputPred e0 = true := by
      unfold inputPred at hpred ⊢
      rw [htag, htype]
      exact hpred
    intro hne
    rw [← hid] at hne
    rw [← hid]
    exact h e0 he0 hpred0 hne
  obtain ⟨out, hout⟩ := collectInputs_ok
    ((collectLinks st 0 [] []
        (st.doc.filter productLinkPred ++ st.doc.filter otherLinkPred)).2.2.doc.filter inputPred)
    (collectLinks st 0 [] []
      (st.doc.filter productLinkPred ++ st.doc.filter otherLinkPred)).2.2
    (collectLinks st 0 [] []
      (st.doc.filter productLinkPred ++ st.doc.filter otherLinkPred)).2.1
    [] hsafe
  rw [hout]
  exact ⟨_, _, rfl, rfl⟩

theorem c5_totality_amended_witness :
    (extractPageFeatures badClassSt).toOption.map (fun q => q.1.success) = some true := by
  obtain ⟨r, st1, hok, hsucc⟩ := c5_totality_amended badClassSt (by decide)
  rw [hok]
  exact congrArg some hsucc

/-! ### String and character-list lemmas for selector parsing -/

theorem strExt {a b : String} (h : a.data = b.data) : a = b := by
  cases a
  cases b
  exact congrArg String.mk h

theorem strMkEta (s : String) : (⟨s.data⟩ : String) = s := strExt rfl

theorem mkMarker_injective : Function.Injective mkMarker := by
  intro a b h
  unfold mkMarker at h
  have hd : ("bb-" ++ natToDec a).data = ("bb-" ++ natToDec b).data := by rw [h]
  rw [String.data_append, String.data_append] at hd
  have := List.append_cancel_left hd
  exact natToDec_injective (strExt this)

theorem natToDecAux_digits : ∀ (g n : Nat), ∀ c ∈ natToDecAux g n, c.isDigit = true := by
  intro g
  induction g with
  | zero => intro n c hc; cases hc
  | succ g1 ih =>
    intro n c hc
    simp only [natToDecAux] at hc
    split at hc
    · rename_i h10
      rcases List.mem_singleton.mp hc with rfl
      unfold decDigit
      interval_cases n <;> decide
    · rcases List.mem_append.mp hc with hc | hc
      · exact ih _ c hc
      · rcases List.mem_singleton.mp hc with rfl
        unfold decDigit
        have : n % 10 < 10 := Nat.mod_lt n (by omega)
        interval_cases h : (n % 10) <;> decide

theorem mkMarker_chars : ∀ c ∈ (mkMarker j).data, c.isDigit = true ∨ c = 'b' ∨ c = '-' := by
  intro c hc
  unfold mkMarker at hc
  rw [String.data_append] at hc
  rcases List.mem_append.mp hc with hc | hc
  · have h3 : c = 'b' ∨ c = 'b' ∨ c = '-' := by simpa using hc
    right
    rcases h3 with rfl | rfl | rfl
    · left; rfl
    · left; rfl
    · right; rfl
  · exact Or.inl (natToDecAux_digits _ _ c hc)

theorem find?_of_count_one {p : Elem → Bool} {l : List Elem} {a : Elem}
    (hcount : (l.filter p).length = 1) (ha : a ∈ l) (hpa : p a = true) :
    l.find? p = some a := by
  induction l with
  | nil => cases ha
  | cons x rest ih =>
    by_cases hx : p x = true
    · rw [List.find?_cons_of_pos _ hx]
      rcases List.mem_cons.mp ha with rfl | ha
      · rfl
      · exfalso
        rw [List.filter_cons_of_pos hx] at hcount
        have h0 : (rest.filter p).length = 0 := by
          simpa using hcount
        have : a ∈ rest.filter p := List.mem_filter.mpr ⟨ha, hpa⟩
        rw [List.length_eq_zero.mp h0] at this
        cases this
    · rw [List.find?_cons_of_neg _ (by simpa using hx)]
      rw [List.filter_cons_of_neg (by simpa using hx)] at hcount
      rcases List.mem_cons.mp ha with rfl | ha
      · exact absurd hpa hx
      · exact ih hcount ha

theorem splitOnChar_no_sep : ∀ (l : List Char) (sep : Char), sep ∉ l →
    splitOnChar sep l = [l] := by
  intro l sep
  induction l with
  | nil => intro _; rfl
  | cons c rest ih =>
    intro h
    have hc : ¬(c == sep) = true := by
      simp only [beq_iff_eq]
      intro hh
      exact h (hh ▸ List.mem_cons_self _ _)
    simp only [splitOnChar, if_neg hc]
    rw [ih (fun hm => h (List.mem_cons_of_mem _ hm))]

theorem splitOnChar_append_sep : ∀ (a b : List Char) (sep : Char), sep ∉ a →
    splitOnChar sep (a ++ sep :: b) = a :: splitOnChar sep b := by
  intro a
  induction a with
  | nil =>
    intro b sep _
    simp [splitOnChar]
  | cons c rest ih =>
    intro b sep h
    have hc : ¬(c == sep) = true := by
      simp only [beq_iff_eq]
      intro hh
      exact h (hh ▸ List.mem_cons_self _ _)
    simp only [List.cons_append, splitOnChar, if_neg hc, List.append_eq]
    rw [ih b sep (fun hm => h (List.mem_cons_of_mem _ hm))]

/-- Splitting the dot-joined parts recovers the parts, when each part is
nonempty and dot-free. -/
theorem splitOnChar_intercalate : ∀ (ps : List (List Char)) (sep : Char),
    ps ≠ [] → (∀ x ∈ ps, x ≠ [] ∧ sep ∉ x) →
    splitOnChar sep (intercalateChar sep ps) = ps := by
  intro ps
  induction ps with
  | nil => intro sep h _; exact absurd rfl h
  | cons x rest ih =>
    intro sep _ h
    cases rest with
    | nil =>
      simp only [intercalateChar]
      exact splitOnChar_no_sep x sep (h x (List.mem_cons_self _ _)).2
    | cons y rest1 =>
      simp only [intercalateChar]
      rw [splitOnChar_append_sep x (intercalateChar sep (y :: rest1)) sep
        (h x (List.mem_cons_self _ _)).2]
      rw [ih sep (by simp) (fun z hz => h z (List.mem_cons_of_mem _ hz))]

/-- Joining a split recovers the original characters, unconditionally. -/
theorem intercalate_splitOnChar : ∀ (l : List Char) (sep : Char),
    intercalateChar sep (splitOnChar sep l) = l := by
  intro l sep
  induction l with
  | nil => rfl
  | cons c rest ih =>
    simp only [splitOnChar]
    split
    · rename_i hc
      have hres : splitOnChar sep rest ≠ [] := by
        cases rest with
        | nil => simp [splitOnChar]
        | cons d r2 =>
          simp only [splitOnChar]
          split
          · simp
          · split <;> simp
      cases hsp : splitOnChar sep rest with
      | nil => exact absurd hsp hres
      | cons h2 t2 =>
        rw [hsp] at ih
        simp only [intercalateChar]
        rw [ih]
        have : c = sep := by simpa using hc
        rw [this]
        rfl
    · cases hsp : splitOnChar sep rest with
      | nil =>
        exfalso
        cases rest with
        | nil => simp [splitOnChar] at hsp
        | cons d r2 =>
          simp only [splitOnChar] at hsp
          split at hsp
          · cases hsp
          · split at hsp <;> cases hsp
      | cons h2 t2 =>
        rw [hsp] at ih
        cases t2 with
        | nil =>
          simp only [intercalateChar] at ih ⊢
          rw [ih]
        | cons h3 t3 =>
          simp only [intercalateChar] at ih ⊢
          rw [List.cons_append, ih]

theorem isPrefixOf_cons_ne {a b : Char} {l1 l2 : List Char} (h : a ≠ b) :
    ((a :: l1).isPrefixOf (b :: l2)) = false := by
  simp [List.isPrefixOf, h]

theorem splitOnceOn_boundary : ∀ (a patr b : List Char), '[' ∉ a →
    splitOnceOn ('[' :: patr) (a ++ ('[' :: patr) ++ b) = some (a, b) := by
  intro a
  induction a with
  | nil =>
    intro patr b _
    simp only [List.nil_append]
    rw [List.cons_append]
    simp only [splitOnceOn]
    rw [if_pos ?hp]
    case hp =>
      rw [← List.cons_append]
      exact List.isPrefixOf_iff_prefix.mpr (List.prefix_append _ _)
    rw [← List.cons_append, List.drop_left]
  | cons c rest ih =>
    intro patr b h
    have hc : '[' ≠ c := fun hh => h (hh ▸ List.mem_cons_self _ _)
    simp only [List.cons_append, List.append_assoc] at *
    simp only [splitOnceOn]
    rw [if_neg (by rw [isPrefixOf_cons_ne hc]; simp)]
    have hih := ih patr b (fun hm => h (List.mem_cons_of_mem _ hm))
    simp only [List.append_assoc] at hih
    rw [hih]
    rfl

theorem splitOnceOn_none : ∀ (l patr : List Char), '[' ∉ l →
    splitOnceOn ('[' :: patr) l = none := by
  intro l
  induction l with
  | nil => intro patr _; rfl
  | cons c rest ih =>
    intro patr h
    have hc : '[' ≠ c := fun hh => h (hh ▸ List.mem_cons_self _ _)
    simp only [splitOnceOn]
    rw [if_neg (by rw [isPrefixOf_cons_ne hc]; simp)]
    rw [ih patr (fun hm => h (List.mem_cons_of_mem _ hm))]
    rfl

/-! ### Character-class consequences -/

theorem cssIdentChar_ne {c : Char} (h : (c.isAlphanum || c == '_' || c == '-') = true) :
    c ≠ '[' ∧ c ≠ '.' ∧ c ≠ '"' ∧ c ≠ '#' ∧ c ≠ ']' := by
  refine ⟨?_, ?_, ?_, ?_, ?_⟩ <;> (intro hh; subst hh; revert h; decide)

theorem alpha_alnum {c : Char} (h : c.isAlpha = true) : c.isAlphanum = true := by
  simp [Char.isAlphanum, h]

theorem alpha_ne {c : Char} (h : c.isAlpha = true) : c ≠ '#' ∧ c ≠ '[' := by
  constructor <;> (intro hh; subst hh; revert h; decide)

theorem digit_ne_quote {c : Char} (h : c.isDigit = true) : c ≠ '"' := by
  intro hh; subst hh; revert h; decide

theorem cssIdentOk_chars {q : String} (h : cssIdentOk q = true) :
    q.data ≠ [] ∧ ∀ c ∈ q.data, (c.isAlphanum || c == '_' || c == '-') = true := by
  unfold cssIdentOk at h
  rcases hq : q.data with _ | ⟨c, cs⟩
  · rw [hq] at h; cases h
  · rw [hq] at h
    simp only [Bool.and_eq_true] at h
    refine ⟨by simp, ?_⟩
    intro d hd
    rcases List.mem_cons.mp hd with rfl | hd
    · rcases Bool.or_eq_true_iff.mp h.1 with ha | hu
      · simp [alpha_alnum ha]
      · simp [hu]
    · exact List.all_eq_true.mp h.2 d hd

theorem tagIdentOk_chars {t : String} (h : tagIdentOk t = true) :
    (∃ c cs, t.data = c :: cs ∧ c.isAlpha = true) ∧
    ∀ c ∈ t.data, c.isAlphanum = true := by
  unfold tagIdentOk at h
  rcases hq : t.data with _ | ⟨c, cs⟩
  · rw [hq] at h; cases h
  · rw [hq] at h
    simp only [Bool.and_eq_true] at h
    refine ⟨⟨c, cs, rfl, h.1⟩, ?_⟩
    intro d hd
    rcases List.mem_cons.mp hd with rfl | hd
    · exact alpha_alnum h.1
    · exact List.all_eq_true.mp h.2 d hd

theorem idOk_chars {i : String} (h : idOk i = true) :
    (∃ c cs, i.data = c :: cs ∧ c.isAlpha = true) ∧
    ∀ c ∈ i.data, (c.isAlphanum || c == '_' || c == '-') = true := by
  unfold idOk at h
  rcases hq : i.data with _ | ⟨c, cs⟩
  · rw [hq] at h; cases h
  · rw [hq] at h
    simp only [Bool.and_eq_true] at h
    refine ⟨⟨c, cs, rfl, h.1⟩, ?_⟩
    intro d hd
    rcases List.mem_cons.mp hd with rfl | hd
    · simp [alpha_alnum h.1]
    · exact List.all_eq_true.mp h.2 d hd

/-! ### Round-trip infrastructure: strip transport and parse inversions -/

theorem dropLast_pair (l : List Char) (a b : Char) :
    (l ++ [a, b]).dropLast.dropLast = l := by
  have h : l ++ [a, b] = (l ++ [a]) ++ [b] := by simp
  rw [h, List.dropLast_concat, List.dropLast_concat]

theorem extractBBId_none_of_head {s : String} {c : Char} {l : List Char}
    (hs : s.data = c :: l) (hc : c ≠ '[') : extractBBId s = none := by
  unfold extractBBId
  rw [hs]
  rw [if_neg]
  rw [show ("[data-bb-id=\"".data) = '[' :: "data-bb-id=\"".data from rfl,
    isPrefixOf_cons_ne (fun h => hc h.symm)]
  simp

theorem extractBBId_mkMarkerSel {m : String} (hm : ∀ c ∈ m.data, ¬c = '"') :
    extractBBId (mkMarkerSel m) = some m := by
  have hdata : (mkMarkerSel m).data = "[data-bb-id=\"".data ++ (m.data ++ ['"', ']']) := by
    unfold mkMarkerSel
    rw [String.data_append ("[data-bb-id=\"" ++ m) "\"]",
      String.data_append "[data-bb-id=\"" m]
    simp [show ("\"]").data = ['"', ']'] from rfl]
  simp only [extractBBId, hdata]
  rw [if_pos (List.isPrefixOf_iff_prefix.mpr (List.prefix_append _ _))]
  simp only [List.drop_left]
  have hlen : (m.data ++ ['"', ']']).length = m.data.length + 2 := by simp
  have htake : (m.data ++ ['"', ']']).take ((m.data ++ ['"', ']']).length - 2) = m.data := by
    rw [hlen]
    simpa using List.take_left m.data ['"', ']']
  have hdrop : (m.data ++ ['"', ']']).drop ((m.data ++ ['"', ']']).length - 2) = ['"', ']'] := by
    rw [hlen]
    simpa using List.drop_left m.data ['"', ']']
  rw [if_pos ⟨hdrop, by omega, by
    rw [htake]
    simpa using hm⟩]
  rw [htake, strMkEta]

theorem mem_intercalateChar : ∀ (ps : List (List Char)) (sep : Char), ∀ c ∈ intercalateChar sep ps,
    c = sep ∨ ∃ x ∈ ps, c ∈ x := by
  intro ps sep
  induction ps with
  | nil => intro c hc; cases hc
  | cons x rest ih =>
    intro c hc
    match rest, hc with
    | [], hc => exact Or.inr ⟨x, by simp, by simpa [intercalateChar] using hc⟩
    | y :: t, hc =>
      rw [show intercalateChar sep (x :: y :: t) = x ++ sep :: intercalateChar sep (y :: t)
        from rfl] at hc
      rcases List.mem_append.mp hc with hx | hs
      · exact Or.inr ⟨x, by simp, hx⟩
      · rcases List.mem_cons.mp hs with rfl | hs
        · exact Or.inl rfl
        · rcases ih c hs with h | ⟨z, hz, hcz⟩
          · exact Or.inl h
          · exact Or.inr ⟨z, List.mem_cons_of_mem _ hz, hcz⟩

theorem find?_append_none {α : Type} {p : α → Bool} {l1 l2 : List α}
    (h : l1.find? p = none) : (l1 ++ l2).find? p = l2.find? p := by
  induction l1 with
  | nil => rfl
  | cons x rest ih =>
    rw [List.cons_append]
    rcases hx : p x with _ | _
    · rw [List.find?_cons_of_neg _ (by simp [hx])]
      rw [List.find?_cons_of_neg _ (by simp [hx])] at h
      exact ih h
    · rw [List.find?_cons_of_pos _ hx] at h
      cases h

theorem filterLength_strip {p : Elem → Bool} (hp : ∀ x, p (stripBB x) = p x)
    {d1 d2 : List Elem} (h : d1.map stripBB = d2.map stripBB) :
    (d1.filter p).length = (d2.filter p).length := by
  have h1 : (d1.map stripBB).countP p = (d2.map stripBB).countP p := by rw [h]
  rw [List.countP_map, List.countP_map] at h1
  have e1 : d1.countP (p ∘ stripBB) = d1.countP p :=
    List.countP_congr (by intro a _; simp [Function.comp, hp])
  have e2 : d2.countP (p ∘ stripBB) = d2.countP p :=
    List.countP_congr (by intro a _; simp [Function.comp, hp])
  rw [e1, e2] at h1
  rw [← List.countP_eq_length_filter, ← List.countP_eq_length_filter]
  exact h1

theorem mem_strip_corr {d1 d2 : List Elem} (h : d1.map stripBB = d2.map stripBB)
    {e : Elem} (he : e ∈ d2) : ∃ x ∈ d1, stripBB x = stripBB e := by
  have : stripBB e ∈ d1.map stripBB := by
    rw [h]
    exact List.mem_map_of_mem _ he
  rcases List.mem_map.mp this with ⟨x, hx, hxe⟩
  exact ⟨x, hx, hxe⟩

theorem filter_eid_one {doc : List Elem} (hnodup : (doc.map Elem.eid).Nodup)
    {e : Elem} (he : e ∈ doc) :
    (doc.filter (fun x => x.eid == e.eid)).length = 1 := by
  induction doc with
  | nil => cases he
  | cons x rest ih =>
    rw [List.map_cons, List.nodup_cons] at hnodup
    rcases List.mem_cons.mp he with rfl | he
    · have hrest : rest.filter (fun y => y.eid == e.eid) = [] := by
        rw [List.filter_eq_nil_iff]
        intro y hy hbe
        apply hnodup.1
        have hy2 : y.eid = e.eid := by simpa using hbe
        rw [← hy2]
        exact List.mem_map_of_mem _ hy
      rw [List.filter_cons, if_pos (by simp), hrest]
      rfl
    · have hne : ¬(x.eid == e.eid) = true := by
        intro hbe
        apply hnodup.1
        have hx2 : x.eid = e.eid := by simpa using hbe
        rw [hx2]
        exact List.mem_map_of_mem _ he
      rw [List.filter_cons, if_neg hne]
      exact ih hnodup.2 he

theorem getElementBySelector_nonmarker {st : EngState} {s : String} {c : Char} {l : List Char}
    (hs : s.data = c :: l) (hc : c ≠ '[') :
    getElementBySelector st s = querySelStr st.doc s := by
  unfold getElementBySelector
  rw [extractBBId_none_of_head hs hc]

theorem querySelStr_id {doc : List Elem} {i : String} (h : idOk i = true) :
    querySelStr doc ("#" ++ i) = doc.find? (matchesId i) := by
  have hd : ("#" ++ i).data = '#' :: i.data := by
    rw [String.data_append "#" i]
    rfl
  simp only [querySelStr, hd, List.head?_cons, List.tail_cons, strMkEta, if_true]
  rw [if_pos h]

theorem querySelStr_name {doc : List Elem} {t v : String}
    (ht : tagIdentOk t = true) (hv : nameValOk v = true) :
    querySelStr doc (t ++ "[name=\"" ++ v ++ "\"]") = doc.find? (matchesName t v) := by
  obtain ⟨⟨c, cs, hcs, hca⟩, hall⟩ := tagIdentOk_chars ht
  have hnb : '[' ∉ t.data := by
    intro hm
    exact absurd (hall _ hm) (by intro hh; revert hh; decide)
  have hd : (t ++ "[name=\"" ++ v ++ "\"]").data
      = t.data ++ ('[' :: ['n', 'a', 'm', 'e', '=', '"']) ++ (v.data ++ ['"', ']']) := by
    rw [String.data_append (t ++ "[name=\"" ++ v) "\"]",
      String.data_append (t ++ "[name=\"") v,
      String.data_append t "[name=\""]
    simp
  have hsplit := splitOnceOn_boundary t.data (['n', 'a', 'm', 'e', '=', '"'])
    (v.data ++ ['"', ']']) hnb
  simp only [querySelStr, hd]
  rw [if_neg ?hhash]
  case hhash =>
    rw [hcs]
    simp only [List.cons_append, List.head?_cons]
    intro hh
    exact (alpha_ne hca).1 (Option.some.injEq _ _ ▸ hh)
  rw [if_neg ?hmark]
  case hmark =>
    rw [hcs]
    simp only [List.cons_append]
    rw [isPrefixOf_cons_ne (fun hh => (alpha_ne hca).2 hh.symm)]
    simp
  simp only [hsplit, dropLast_pair, strMkEta]
  rw [if_pos trivial, if_pos (by rw [ht, hv]; rfl)]

theorem map_mk_data : ∀ l : List String, List.map (fun q => ({ data := q.data } : String)) l = l := by
  intro l
  induction l with
  | nil => rfl
  | cons a t ih => simp only [List.map_cons, strMkEta, ih]

theorem querySelStr_class {doc : List Elem} {t : String} {ps : List String}
    (ht : tagIdentOk t = true) (hne : ps ≠ [])
    (hps : ∀ q ∈ ps, cssIdentOk q = true) :
    querySelStr doc ⟨t.data ++ '.' :: intercalateChar '.' (ps.map String.data)⟩
      = doc.find? (matchesClasses t ps) := by
  obtain ⟨⟨c, cs, hcs, hca⟩, hall⟩ := tagIdentOk_chars ht
  have hpart : ∀ x ∈ ps.map String.data, x ≠ [] ∧ '.' ∉ x := by
    intro x hx
    rcases List.mem_map.mp hx with ⟨q, hq, rfl⟩
    obtain ⟨hqne, hqc⟩ := cssIdentOk_chars (hps q hq)
    refine ⟨hqne, fun hm => ?_⟩
    exact (cssIdentChar_ne (hqc _ hm)).2.1 rfl
  have hnb : '[' ∉ t.data ++ '.' :: intercalateChar '.' (ps.map String.data) := by
    intro hm
    rcases List.mem_append.mp hm with hm | hm
    · exact absurd (hall _ hm) (by intro hh; revert hh; decide)
    · rcases List.mem_cons.mp hm with hm | hm
      · exact absurd hm (by decide)
      · rcases mem_intercalateChar _ _ _ hm with hm | ⟨x, hx, hcx⟩
        · exact absurd hm (by decide)
        · rcases List.mem_map.mp hx with ⟨q, hq, rfl⟩
          exact (cssIdentChar_ne ((cssIdentOk_chars (hps q hq)).2 _ hcx)).1 rfl
  have hdot : '.' ∉ t.data := by
    intro hm
    exact absurd (hall _ hm) (by intro hh; revert hh; decide)
  rcases ps with _ | ⟨q0, ps1⟩
  · exact absurd rfl hne
  simp only [querySelStr]
  rw [if_neg ?hhash]
  case hhash =>
    rw [hcs]
    simp only [List.cons_append, List.head?_cons]
    intro hh
    exact (alpha_ne hca).1 (Option.some.injEq _ _ ▸ hh)
  rw [if_neg ?hmark]
  case hmark =>
    rw [hcs]
    simp only [List.cons_append]
    rw [isPrefixOf_cons_ne (fun hh => (alpha_ne hca).2 hh.symm)]
    simp
  rw [splitOnceOn_none _ _ hnb]
  rw [splitOnChar_append_sep _ _ _ hdot]
  rw [splitOnChar_intercalate _ _ (by simp) hpart]
  simp only [List.map_cons, strMkEta]
  rw [if_pos ?hguard]
  case hguard =>
    have hb : (List.all (q0.data :: ps1.map String.data) fun q => cssIdentOk ⟨q⟩) = true := by
      rw [List.all_eq_true]
      intro x hx
      rcases List.mem_cons.mp hx with rfl | hx
      · rw [strMkEta]
        exact hps q0 (by simp)
      · rcases List.mem_map.mp hx with ⟨q, hq, rfl⟩
        rw [strMkEta]
        exact hps q (List.mem_cons_of_mem _ hq)
    rw [ht, hb]
    rfl
  have hmm : List.map (fun q => ({ data := q } : String)) (ps1.map String.data) = ps1 := by
    rw [List.map_map]
    exact map_mk_data ps1
  rw [hmm]

theorem eq_empty_of_data_nil {s : String} (h : s.data = []) : s = "" := strExt h

theorem roundTrip_id {st2 : EngState} {docRef : List Elem} {e : Elem}
    (he : e ∈ docRef)
    (hok : idOk e.idAttr = true)
    (huniq : (docRef.filter (matchesId e.idAttr)).length = 1)
    (hstrip : st2.doc.map stripBB = docRef.map stripBB) :
    ∃ r, getElementBySelector st2 ("#" ++ e.idAttr) = some r ∧ r.eid = e.eid := by
  obtain ⟨e2, he2, hse⟩ := mem_strip_corr hstrip he
  have hp : ∀ x : Elem, matchesId e.idAttr (stripBB x) = matchesId e.idAttr x := fun x => rfl
  have hlen : (st2.doc.filter (matchesId e.idAttr)).length = 1 :=
    (filterLength_strip hp hstrip).trans huniq
  have hpe2 : matchesId e.idAttr e2 = true := by
    have h2 : matchesId e.idAttr (stripBB e2) = matchesId e.idAttr (stripBB e) := by rw [hse]
    rw [hp, hp] at h2
    rw [h2]
    simp [matchesId]
  have hfind : st2.doc.find? (matchesId e.idAttr) = some e2 := find?_of_count_one hlen he2 hpe2
  have hd : ("#" ++ e.idAttr).data = '#' :: e.idAttr.data := by
    rw [String.data_append "#" e.idAttr]
    rfl
  rw [getElementBySelector_nonmarker hd (by decide), querySelStr_id hok, hfind]
  refine ⟨e2, rfl, ?_⟩
  have h3 := congrArg Elem.eid hse
  exact h3

theorem roundTrip_name {st2 : EngState} {docRef : List Elem} {e : Elem} {v : String}
    (he : e ∈ docRef)
    (ht : tagIdentOk e.tag = true)
    (hv : nameValOk v = true)
    (hnm : e.name? = some v)
    (huniq : (docRef.filter (matchesName e.tag v)).length = 1)
    (hstrip : st2.doc.map stripBB = docRef.map stripBB) :
    ∃ r, getElementBySelector st2 (e.tag ++ "[name=\"" ++ v ++ "\"]") = some r ∧
      r.eid = e.eid := by
  obtain ⟨e2, he2, hse⟩ := mem_strip_corr hstrip he
  obtain ⟨⟨c, cs, hcs, hca⟩, _⟩ := tagIdentOk_chars ht
  have hp : ∀ x : Elem, matchesName e.tag v (stripBB x) = matchesName e.tag v x := fun x => rfl
  have hlen : (st2.doc.filter (matchesName e.tag v)).length = 1 :=
    (filterLength_strip hp hstrip).trans huniq
  have hpe2 : matchesName e.tag v e2 = true := by
    have h2 : matchesName e.tag v (stripBB e2) = matchesName e.tag v (stripBB e) := by rw [hse]
    rw [hp, hp] at h2
    rw [h2]
    simp [matchesName, hnm]
  have hfind : st2.doc.find? (matchesName e.tag v) = some e2 := find?_of_count_one hlen he2 hpe2
  have hd : (e.tag ++ "[name=\"" ++ v ++ "\"]").data
      = c :: (cs ++ ('[' :: ['n', 'a', 'm', 'e', '=', '"']) ++ (v.data ++ ['"', ']'])) := by
    rw [String.data_append (e.tag ++ "[name=\"" ++ v) "\"]",
      String.data_append (e.tag ++ "[name=\"") v,
      String.data_append e.tag "[name=\"", hcs]
    simp
  rw [getElementBySelector_nonmarker hd (fun hh => (alpha_ne hca).2 (hh ▸ rfl)),
    querySelStr_name ht hv, hfind]
  refine ⟨e2, rfl, ?_⟩
  have h3 := congrArg Elem.eid hse
  exact h3

theorem roundTrip_class {st2 : EngState} {docRef : List Elem} {e : Elem}
    (he : e ∈ docRef)
    (ht : tagIdentOk e.tag = true)
    (hlen0 : (classesF e).length > 0)
    (hpne : classParts e ≠ [])
    (hall : ((classParts e).all (fun q => cssIdentOk q)) = true)
    (hclean : ∀ cl ∈ e.classes, '.' ∉ cl.data)
    (huniq : (docRef.filter (matchesClasses e.tag (classParts e))).length = 1)
    (hstrip : st2.doc.map stripBB = docRef.map stripBB) :
    ∃ r, getElementBySelector st2 ⟨e.tag.data ++ '.' :: classJoined e⟩ = some r ∧
      r.eid = e.eid := by
  obtain ⟨e2, he2, hse⟩ := mem_strip_corr hstrip he
  obtain ⟨⟨c, cs, hcs, hca⟩, _⟩ := tagIdentOk_chars ht
  have hcl3 : ∀ q ∈ (classesF e).take 3, q.data ≠ [] ∧ '.' ∉ q.data := by
    intro q hq
    have hqf : q ∈ classesF e := List.take_subset 3 (classesF e) hq
    have hqc : q ∈ e.classes := List.mem_of_mem_filter hqf
    have hqp := (List.mem_filter.mp hqf).2
    rw [Bool.and_eq_true] at hqp
    refine ⟨fun hd => ?_, hclean q hqc⟩
    exact (of_decide_eq_true hqp.1) (eq_empty_of_data_nil hd)
  have htk : ((classesF e).take 3).map String.data ≠ [] := by
    intro hd
    rcases List.map_eq_nil.mp hd with hd
    rw [List.take_eq_nil_iff] at hd
    rcases hd with hd | hd
    · cases hd
    · rw [hd] at hlen0
      cases hlen0
  have hsplit : splitOnChar '.' (classJoined e) = ((classesF e).take 3).map String.data := by
    unfold classJoined
    apply splitOnChar_intercalate _ _ htk
    intro x hx
    rcases List.mem_map.mp hx with ⟨q, hq, rfl⟩
    exact hcl3 q hq
  have hparts : classParts e = (classesF e).take 3 := by
    unfold classParts
    rw [hsplit, List.map_map]
    exact map_mk_data _
  have hjoin : classJoined e = intercalateChar '.' ((classParts e).map String.data) := by
    rw [hparts]
    unfold classJoined
    rfl
  have hp : ∀ x : Elem, matchesClasses e.tag (classParts e) (stripBB x)
      = matchesClasses e.tag (classParts e) x := fun x => rfl
  have hlen : (st2.doc.filter (matchesClasses e.tag (classParts e))).length = 1 :=
    (filterLength_strip hp hstrip).trans huniq
  have hpe : matchesClasses e.tag (classParts e) e = true := by
    unfold matchesClasses
    rw [Bool.and_eq_true]
    refine ⟨by simp, ?_⟩
    rw [List.all_eq_true]
    intro q hq
    rw [hparts] at hq
    have hqc : q ∈ e.classes := List.mem_of_mem_filter (List.take_subset 3 (classesF e) hq)
    exact List.elem_iff.mpr hqc
  have hpe2 : matchesClasses e.tag (classParts e) e2 = true := by
    have h2 : matchesClasses e.tag (classParts e) (stripBB e2)
        = matchesClasses e.tag (classParts e) (stripBB e) := by rw [hse]
    rw [hp, hp] at h2
    rw [h2]
    exact hpe
  have hfind : st2.doc.find? (matchesClasses e.tag (classParts e)) = some e2 :=
    find?_of_count_one hlen he2 hpe2
  have hd : (⟨e.tag.data ++ '.' :: classJoined e⟩ : String).data
      = c :: (cs ++ '.' :: classJoined e) := by
    show e.tag.data ++ '.' :: classJoined e = c :: (cs ++ '.' :: classJoined e)
    rw [hcs]
    rfl
  rw [getElementBySelector_nonmarker hd (fun hh => (alpha_ne hca).2 (hh ▸ rfl))]
  rw [show (⟨e.tag.data ++ '.' :: classJoined e⟩ : String)
    = ⟨e.tag.data ++ '.' :: intercalateChar '.' ((classParts e).map String.data)⟩ from by
      rw [← hjoin]]
  rw [querySelStr_class ht hpne (fun q hq => List.all_eq_true.mp hall q hq), hfind]
  refine ⟨e2, rfl, ?_⟩
  have h3 := congrArg Elem.eid hse
  exact h3

theorem roundTrip_marker {st st2 : EngState} {e : Elem}
    (he : e ∈ st.doc)
    (hnodup : (st.doc.map Elem.eid).Nodup)
    (hcache : CacheBelow st)
    (hbody : e.inBody = true)
    (hstrip : st2.doc.map stripBB = st.doc.map stripBB)
    (hcext : ∃ cr, st2.cache = mapSet st.cache (mkMarker st.counter) e.eid ++ cr) :
    ∃ r, getElementBySelector st2 (mkMarkerSel (mkMarker st.counter)) = some r ∧
      r.eid = e.eid := by
  obtain ⟨cr, hcr⟩ := hcext
  obtain ⟨e2, he2, hse⟩ := mem_strip_corr hstrip he
  have hq : ∀ ch ∈ (mkMarker st.counter).data, ¬ch = '"' := by
    intro ch hch
    rcases mkMarker_chars ch hch with h | h | h
    · exact digit_ne_quote h
    · rw [h]; decide
    · rw [h]; decide
  have hfresh : st.cache.any (fun p => p.1 == mkMarker st.counter) = false := by
    rw [Bool.eq_false_iff]
    intro hany
    rcases List.any_eq_true.mp hany with ⟨p, hp, hbe⟩
    rcases hcache p hp with ⟨j, hj, hkey⟩
    have hpe : p.1 = mkMarker st.counter := by simpa using hbe
    rw [hkey] at hpe
    have hji := mkMarker_injective hpe
    omega
  have hmap : mapSet st.cache (mkMarker st.counter) e.eid
      = st.cache ++ [(mkMarker st.counter, e.eid)] := by
    unfold mapSet
    rw [hfresh]
    simp
  have hnone : st.cache.find? (fun p => p.1 == mkMarker st.counter) = none := by
    rw [List.find?_eq_none]
    intro p hp hbe
    rcases hcache p hp with ⟨j, hj, hkey⟩
    have hpe : p.1 = mkMarker st.counter := by simpa using hbe
    rw [hkey] at hpe
    have hji := mkMarker_injective hpe
    omega
  have hfindq : st2.cache.find? (fun p => p.1 == mkMarker st.counter)
      = some (mkMarker st.counter, e.eid) := by
    rw [hcr, hmap, List.append_assoc, find?_append_none hnone]
    rw [show ([(mkMarker st.counter, e.eid)] ++ cr) = (mkMarker st.counter, e.eid) :: cr
      from rfl]
    rw [List.find?_cons_of_pos _ (by simp)]
  have hlookup : assocLookup st2.cache (mkMarker st.counter) = some e.eid := by
    unfold assocLookup
    rw [hfindq]
  have heq2 : e2.eid = e.eid := by
    have h3 := congrArg Elem.eid hse
    exact h3
  have hpeid : ∀ x : Elem, (fun y : Elem => y.eid == e.eid) (stripBB x)
      = (fun y : Elem => y.eid == e.eid) x := fun x => rfl
  have hlen : (st2.doc.filter (fun y => y.eid == e.eid)).length = 1 :=
    (filterLength_strip hpeid hstrip).trans (filter_eid_one hnodup he)
  have hfind2 : st2.doc.find? (fun y => y.eid == e.eid) = some e2 :=
    find?_of_count_one hlen he2 (by simp [heq2])
  have hbody2 : e2.inBody = true := by
    have h4 := congrArg Elem.inBody hse
    have h5 : e2.inBody = e.inBody := h4
    rw [h5]
    exact hbody
  refine ⟨e2, ?_, heq2⟩
  simp only [getElementBySelector, extractBBId_mkMarkerSel hq, hlookup, hfind2, hbody2,
    if_true]

/-- C1: the selector round trip holds as stated only away from class
punning: for an element of the current document (distinct element
identities, cache keys the engine's own, element attached to the body,
and no class name containing a dot), the selector generateSelector
returns resolves, in the post-generation state and in any later state
whose document differs only in marker attributes and whose cache has only
grown, to an element with the originating element's identity. -/
theorem c1_round_trip_amended
    (st : EngState) (e : Elem) (st2 : EngState)
    (he : e ∈ st.doc)
    (hnodup : (st.doc.map Elem.eid).Nodup)
    (hcache : CacheBelow st)
    (hclean : ∀ cl ∈ e.classes, '.' ∉ cl.data)
    (hbody : e.inBody = true)
    (hstrip : st2.doc.map stripBB = st.doc.map stripBB)
    (hcext : ∃ cr, st2.cache = (generateSelector st e).2.cache ++ cr) :
    ∃ r, getElementBySelector st2 (generateSelector st e).1 = some r ∧ r.eid = e.eid := by
  by_cases h1 : e.idAttr ≠ "" ∧ idOk e.idAttr = true ∧
      (st.doc.filter (matchesId e.idAttr)).length = 1
  · have hgs : generateSelector st e = ("#" ++ e.idAttr, st) := by
      unfold generateSelector
      rw [if_pos h1]
    rw [hgs]
    exact roundTrip_id he h1.2.1 h1.2.2 hstrip
  · by_cases h2 : (e.tag == "input" || e.tag == "textarea" || e.tag == "select") = true ∧
        (e.name?.getD "") ≠ "" ∧ tagIdentOk e.tag = true ∧
        nameValOk (e.name?.getD "") = true ∧
        (st.doc.filter (matchesName e.tag (e.name?.getD ""))).length = 1
    · have hgs : generateSelector st e = (e.tag ++ "[name=\"" ++ e.name?.getD "" ++ "\"]", st) := by
        unfold generateSelector
        rw [if_neg h1, if_pos h2]
      rw [hgs]
      have hnm : e.name? = some (e.name?.getD "") := by
        rcases hn : e.name? with _ | w
        · exact absurd (by rw [hn]; rfl) h2.2.1
        · rfl
      exact roundTrip_name he h2.2.2.1 h2.2.2.2.1 hnm h2.2.2.2.2 hstrip
    · by_cases h3 : (classesF e).length > 0 ∧ tagIdentOk e.tag = true ∧ classParts e ≠ [] ∧
          ((classParts e).all (fun q => cssIdentOk q)) = true ∧
          (st.doc.filter (matchesClasses e.tag (classParts e))).length = 1
      · have hgs : generateSelector st e = (⟨e.tag.data ++ '.' :: classJoined e⟩, st) := by
          unfold generateSelector
          rw [if_neg h1, if_neg h2, if_pos h3]
        rw [hgs]
        exact roundTrip_class he h3.2.1 h3.1 h3.2.2.1 h3.2.2.2.1 hclean h3.2.2.2.2 hstrip
      · have hgs : generateSelector st e =
            (mkMarkerSel (mkMarker st.counter),
             { st with
               doc := updateElem st.doc e.eid
                 (fun x => { x with dataBBId? := some (mkMarker st.counter) })
               cache := mapSet st.cache (mkMarker st.counter) e.eid
               counter := st.counter + 1 }) := by
          unfold generateSelector
          rw [if_neg h1, if_neg h2, if_neg h3]
        rw [hgs] at hcext ⊢
        exact roundTrip_marker he hnodup hcache hbody hstrip hcext

/-- For the claim theorem of C1: a one-anchor page with a unique valid id
resolves its generated selector #home back to the anchor. -/
theorem c1_round_trip_amended_witness :
    ∃ r, getElementBySelector idAnchorSt (generateSelector idAnchorSt idAnchor).1 = some r ∧
      r.eid = 0 :=
  c1_round_trip_amended idAnchorSt idAnchor idAnchorSt
    (by decide) (by decide)
    (fun p hp => absurd hp (List.not_mem_nil p))
    (fun cl hcl => absurd hcl (List.not_mem_nil cl))
    rfl rfl ⟨[], rfl⟩

/-- The clicked memo always contains the selector markElementAsClicked
just generated, whether or not it was already present. -/
theorem mark_contains (st : EngState) (e : Elem) :
    (generateSelector st e).1 ∈ (markElementAsClicked st e).clicked := by
  simp only [markElementAsClicked]
  by_cases hc : (generateSelector st e).2.clicked.contains (generateSelector st e).1 = true
  · rw [if_pos hc]
    exact List.elem_iff.mp hc
  · rw [if_neg hc]
    exact List.mem_append_right _ (by simp)

/-- Selector regeneration is stable on every non-synthetic path: when
generateSelector returns without mutating the state (the id, name and
class branches), regenerating for the same element in a state whose
document differs only in marker attributes yields the identical selector
string, again without mutation.  Every guard of the three non-synthetic
branches reads only marker-stripped element fields, so branch selection
and the produced string transport across the strip equality. -/
theorem genSel_stable (st st2 : EngState) (e e2 : Elem)
    (hstrip : st2.doc.map stripBB = st.doc.map stripBB)
    (he2 : stripBB e2 = stripBB e)
    (hnonmark : (generateSelector st e).2 = st) :
    generateSelector st2 e2 = ((generateSelector st e).1, st2) := by
  have hida : e2.idAttr = e.idAttr := by
    have h := congrArg Elem.idAttr he2
    exact h
  have htag : e2.tag = e.tag := by
    have h := congrArg Elem.tag he2
    exact h
  have hname : e2.name? = e.name? := by
    have h := congrArg Elem.name? he2
    exact h
  have hcls : e2.classes = e.classes := by
    have h := congrArg Elem.classes he2
    exact h
  have hclsF : classesF e2 = classesF e := by
    unfold classesF
    rw [hcls]
  have hcj : classJoined e2 = classJoined e := by
    unfold classJoined
    rw [hclsF]
  have hcp : classParts e2 = classParts e := by
    unfold classParts
    rw [hcj]
  have hp1 : ∀ x : Elem, matchesId e.idAttr (stripBB x) = matchesId e.idAttr x :=
    fun x => rfl
  have hp2 : ∀ x : Elem, matchesName e.tag (e.name?.getD "") (stripBB x)
      = matchesName e.tag (e.name?.getD "") x := fun x => rfl
  have hp3 : ∀ x : Elem, matchesClasses e.tag (classParts e) (stripBB x)
      = matchesClasses e.tag (classParts e) x := fun x => rfl
  have ht1 : (st2.doc.filter (matchesId e.idAttr)).length
      = (st.doc.filter (matchesId e.idAttr)).length :=
    filterLength_strip hp1 hstrip
  have ht2 : (st2.doc.filter (matchesName e.tag (e.name?.getD ""))).length
      = (st.doc.filter (matchesName e.tag (e.name?.getD ""))).length :=
    filterLength_strip hp2 hstrip
  have ht3 : (st2.doc.filter (matchesClasses e.tag (classParts e))).length
      = (st.doc.filter (matchesClasses e.tag (classParts e))).length :=
    filterLength_strip hp3 hstrip
  have hg1 : (e2.idAttr ≠ "" ∧ idOk e2.idAttr = true ∧
      (st2.doc.filter (matchesId e2.idAttr)).length = 1) ↔
      (e.idAttr ≠ "" ∧ idOk e.idAttr = true ∧
      (st.doc.filter (matchesId e.idAttr)).length = 1) := by
    rw [hida, ht1]
  have hg2 : ((e2.tag == "input" || e2.tag == "textarea" || e2.tag == "select") = true ∧
      (e2.name?.getD "") ≠ "" ∧ tagIdentOk e2.tag = true ∧
      nameValOk (e2.name?.getD "") = true ∧
      (st2.doc.filter (matchesName e2.tag (e2.name?.getD ""))).length = 1) ↔
      ((e.tag == "input" || e.tag == "textarea" || e.tag == "select") = true ∧
      (e.name?.getD "") ≠ "" ∧ tagIdentOk e.tag = true ∧
      nameValOk (e.name?.getD "") = true ∧
      (st.doc.filter (matchesName e.tag (e.name?.getD ""))).length = 1) := by
    rw [htag, hname, ht2]
  have hg3 : ((classesF e2).length > 0 ∧ tagIdentOk e2.tag = true ∧ classParts e2 ≠ [] ∧
      ((classParts e2).all (fun q => cssIdentOk q)) = true ∧
      (st2.doc.filter (matchesClasses e2.tag (classParts e2))).length = 1) ↔
      ((classesF e).length > 0 ∧ tagIdentOk e.tag = true ∧ classParts e ≠ [] ∧
      ((classParts e).all (fun q => cssIdentOk q)) = true ∧
      (st.doc.filter (matchesClasses e.tag (classParts e))).length = 1) := by
    rw [hclsF, htag, hcp, ht3]
  by_cases h1 : e.idAttr ≠ "" ∧ idOk e.idAttr = true ∧
      (st.doc.filter (matchesId e.idAttr)).length = 1
  · have hgs : generateSelector st e = ("#" ++ e.idAttr, st) := by
      unfold generateSelector
      rw [if_pos h1]
    have hgs2 : generateSelector st2 e2 = ("#" ++ e2.idAttr, st2) := by
      unfold generateSelector
      rw [if_pos (hg1.mpr h1)]
    rw [hgs2, hgs, hida]
  · by_cases h2 : (e.tag == "input" || e.tag == "textarea" || e.tag == "select") = true ∧
        (e.name?.getD "") ≠ "" ∧ tagIdentOk e.tag = true ∧
        nameValOk (e.name?.getD "") = true ∧
        (st.doc.filter (matchesName e.tag (e.name?.getD ""))).length = 1
    · have hgs : generateSelector st e
          = (e.tag ++ "[name=\"" ++ e.name?.getD "" ++ "\"]", st) := by
        unfold generateSelector
        rw [if_neg h1, if_pos h2]
      have hgs2 : generateSelector st2 e2
          = (e2.tag ++ "[name=\"" ++ e2.name?.getD "" ++ "\"]", st2) := by
        unfold generateSelector
        rw [if_neg (fun hh => h1 (hg1.mp hh)), if_pos (hg2.mpr h2)]
      rw [hgs2, hgs, htag, hname]
    · by_cases h3 : (classesF e).length > 0 ∧ tagIdentOk e.tag = true ∧ classParts e ≠ [] ∧
          ((classParts e).all (fun q => cssIdentOk q)) = true ∧
          (st.doc.filter (matchesClasses e.tag (classParts e))).length = 1
      · have hgs : generateSelector st e = (⟨e.tag.data ++ '.' :: classJoined e⟩, st) := by
          unfold generateSelector
          rw [if_neg h1, if_neg h2, if_pos h3]
        have hgs2 : generateSelector st2 e2
            = (⟨e2.tag.data ++ '.' :: classJoined e2⟩, st2) := by
          unfold generateSelector
          rw [if_neg (fun hh => h1 (hg1.mp hh)), if_neg (fun hh => h2 (hg2.mp hh)),
            if_pos (hg3.mpr h3)]
        rw [hgs2, hgs, htag, hcj]
      · exfalso
        have hgs : generateSelector st e =
            (mkMarkerSel (mkMarker st.counter),
             { st with
               doc := updateElem st.doc e.eid
                 (fun x => { x with dataBBId? := some (mkMarker st.counter) })
               cache := mapSet st.cache (mkMarker st.counter) e.eid
               counter := st.counter + 1 }) := by
          unfold generateSelector
          rw [if_neg h1, if_neg h2, if_neg h3]
        rw [hgs] at hnonmark
        have hcount : st.counter + 1 = st.counter := congrArg EngState.counter hnonmark
        omega

/-- C4: the clicked-memo round trip holds exactly for non-synthetic
selectors: whenever the CLICK-time generateSelector returns through the
id, name or class branch (equivalently, leaves the engine state
unchanged), the memo records that selector, and any later selector
regeneration for the same element - document changed only in marker
attributes, memo only grown - reproduces the identical selector string,
which the memo contains, so the already_clicked flag every extraction
loop computes for that element is true.  Only the synthetic-marker path
breaks the round trip (the counterexample). -/
theorem c4_clicked_memo_amended
    (st st2 : EngState) (e e2 : Elem)
    (hnonmark : (generateSelector st e).2 = st)
    (hgrow : ∃ r, st2.clicked = (markElementAsClicked st e).clicked ++ r)
    (hstrip : st2.doc.map stripBB = st.doc.map stripBB)
    (he2 : stripBB e2 = stripBB e) :
    (generateSelector st2 e2).2.clicked.contains ((generateSelector st2 e2).1) = true := by
  obtain ⟨r, hr⟩ := hgrow
  rw [genSel_stable st st2 e e2 hstrip he2 hnonmark]
  show st2.clicked.contains ((generateSelector st e).1) = true
  rw [hr]
  exact List.elem_iff.mpr (List.mem_append_left _ (mark_contains st e))

/-- For the claim theorem of C4: clicking the name-selector input (a
non-synthetic path with no id) and regenerating its selector in the
post-click state finds input[name="q"] in the clicked memo. -/
theorem c4_clicked_memo_amended_witness :
    (generateSelector (markElementAsClicked namedInputSt namedInput) namedInput).2.clicked.contains
      ((generateSelector (markElementAsClicked namedInputSt namedInput) namedInput).1) = true :=
  c4_clicked_memo_amended namedInputSt (markElementAsClicked namedInputSt namedInput)
    namedInput namedInput
    (by decide)
    ⟨[], (List.append_nil _).symm⟩
    (by decide) rfl
